import Mathlib

/-!
# The pager: navigation state machine and renderer

A shallow embedding of `main.go`.  Go `int` values are modelled as `Int`
(every handler moves a value by at most 10 and clamps it by the line count,
so nothing comes near the 64-bit range), a `[]rune` obtained from a string is
a `List Char`, and a run-time panic (index out of range) is the value `none`.  The terminal is replaced by the list of cell writes
(`SetContent`) and the cursor decision (`ShowCursor` / `HideCursor`) that
one call of `drawContent` issues.
-/

namespace GoPager

/-! ## Data model -/

/-- One loaded text source: `type ContentBuffer struct`. -/
structure ContentBuffer where
  Filename : String
  Content : List Char
deriving DecidableEq

/-- The pager state: `type Pager struct` without the terminal handle. -/
structure Pager where
  buffers : List ContentBuffer
  cursorX : Int
  cursorY : Int
  viewOffset : Int
  screenWidth : Int
  screenHeight : Int
  currentFileIndex : Int
  showNumbers : Bool
  relativeNumbers : Bool
  quitAtEOF : Bool
deriving DecidableEq

/-- The constant `tabWidth`. -/
def tabWidth : Nat := 4

/-- One `screen.SetContent(x, y, r, nil, tcell.StyleDefault)` call. -/
structure Cell where
  x : Int
  y : Int
  r : Char
deriving DecidableEq

/-- What one redraw sends to the terminal: the cell writes in order, and the
cursor position given to `ShowCursor` (`none` for `HideCursor`). -/
structure Frame where
  cells : List Cell
  cursor : Option (Int × Int)
deriving DecidableEq

/-! ## Library functions used by the source -/

/-- Worker of `splitLines`: `cur` holds the current piece, reversed. -/
def splitAux : List Char → List Char → List (List Char)
  | cur, [] => [cur.reverse]
  | cur, c :: cs =>
    if c = '\n' then cur.reverse :: splitAux [] cs else splitAux (c :: cur) cs

/-- The pieces of `strings.Split(string(content), "\n")`. -/
def splitLines (content : List Char) : List (List Char) :=
  splitAux [] content

/-- Slice indexing `xs[i]` with a Go `int` index; `none` is the panic. -/
def index {α : Type} (xs : List α) (i : Int) : Option α :=
  if 0 ≤ i then xs[i.toNat]? else none

/-- The text of `fmt.Sprintf("%d", n)`. -/
def sprintD (n : Int) : List Char :=
  if n < 0 then '-' :: Nat.toDigits 10 n.natAbs else Nat.toDigits 10 n.natAbs

/-- The text of `fmt.Sprintf("%*d ", width, n)` for a width that is a length:
right-justified in `width` columns, then one space. -/
def sprintPadD (width : Nat) (n : Int) : List Char :=
  List.replicate (width - (sprintD n).length) ' ' ++ sprintD n ++ [' ']

/-- The closure `abs` of `drawContent`. -/
def abs (x : Int) : Int :=
  if x < 0 then -x else x

/-! ## The renderer -/

/-- The loop that writes a line-number text: it stops at the right edge. -/
def drawNumber (W y : Int) : List Char → Int → List Cell × Int
  | [], x => ([], x)
  | r :: rs, x =>
    if x ≥ W then ([], x)
    else
      let rest := drawNumber W y rs (x + 1)
      (⟨x, y, r⟩ :: rest.1, rest.2)

/-- The loop `for i := 0; i < tabWidth; i++` with `n` iterations left, at
pen position `(x, y)`.  Its `break` leaves this loop only. -/
def drawTab (W H pad : Int) : Nat → Int → Int → List Cell × Int × Int
  | 0, x, y => ([], x, y)
  | n + 1, x, y =>
    if x ≥ W then
      if y + 1 ≥ H then ([], pad, y + 1)
      else
        let rest := drawTab W H pad n (pad + 1) (y + 1)
        (⟨pad, y + 1, ' '⟩ :: rest.1, rest.2)
    else
      let rest := drawTab W H pad n (x + 1) y
      (⟨x, y, ' '⟩ :: rest.1, rest.2)

/-- The loop `for _, r := range line` at pen position `(x, y)`; `pad` is
`lineNumberWidth + 1`.  The `break` of the non-tab branch ends the line. -/
def drawLine (W H pad : Int) : List Char → Int → Int → List Cell × Int × Int
  | [], x, y => ([], x, y)
  | r :: rs, x, y =>
    if r = '\t' then
      let tab := drawTab W H pad tabWidth x y
      let rest := drawLine W H pad rs tab.2.1 tab.2.2
      (tab.1 ++ rest.1, rest.2)
    else if x ≥ W then
      if y + 1 ≥ H then ([], pad, y + 1)
      else
        let rest := drawLine W H pad rs (pad + 1) (y + 1)
        (⟨pad, y + 1, r⟩ :: rest.1, rest.2)
    else
      let rest := drawLine W H pad rs (x + 1) y
      (⟨x, y, r⟩ :: rest.1, rest.2)

/-- The body of the line loop for one source line at screen row `y`: both
gutters, then the runes.  Returns the writes and the row the pen ends on. -/
def drawRow (p : Pager) (lineNumberWidth : Nat) (line : List Char)
    (lineNum y : Int) : List Cell × Int :=
  let g1 :=
    if p.showNumbers then
      drawNumber p.screenWidth y (sprintPadD lineNumberWidth (lineNum + 1)) 0
    else ([], 0)
  let g2 :=
    if p.relativeNumbers && !p.showNumbers then
      drawNumber p.screenWidth y
        (sprintPadD lineNumberWidth (abs (p.cursorY - lineNum))) g1.2
    else ([], g1.2)
  let body :=
    drawLine p.screenWidth p.screenHeight ((lineNumberWidth : Int) + 1) line g2.2 y
  (g1.1 ++ g2.1 ++ body.1, body.2.2)

/-- The loop `for lineNum := pager.viewOffset; lineNum < len(lines); lineNum++`
with `k` iterations left before `lineNum` reaches `len(lines)`. -/
def drawLines (p : Pager) (lines : List (List Char)) (lineNumberWidth : Nat) :
    Nat → Int → Int → Option (List Cell)
  | 0, _, _ => some []
  | k + 1, lineNum, y =>
    if y ≥ p.screenHeight then some []
    else
      match index lines lineNum with
      | none => none
      | some line =>
        let row := drawRow p lineNumberWidth line lineNum y
        match drawLines p lines lineNumberWidth k (lineNum + 1) (row.2 + 1) with
        | none => none
        | some rest => some (row.1 ++ rest)

/-- The method `drawContent`: the pager it leaves behind and the frame it
sends to the terminal. -/
def drawContent (p : Pager) : Option (Pager × Frame) :=
  match index p.buffers p.currentFileIndex with
  | none => none
  | some buffer =>
    let lines := splitLines buffer.Content
    let screenCursorY := p.cursorY - p.viewOffset
    let lineNumberWidth : Nat := (sprintD lines.length).length
    match drawLines p lines lineNumberWidth
        ((lines.length : Int) - p.viewOffset).toNat p.viewOffset 0 with
    | none => none
    | some cells =>
      let p1 :=
        if (p.showNumbers || p.relativeNumbers) ∧ p.cursorX < (lineNumberWidth : Int) + 1 then
          { p with cursorX := (lineNumberWidth : Int) + 1 }
        else p
      let cursor :=
        if screenCursorY ≥ 0 ∧ screenCursorY < p.screenHeight then
          some (p1.cursorX, screenCursorY)
        else none
      some (p1, ⟨cells, cursor⟩)

/-! ## The event loop -/

/-- The events the loop of `main` reacts to. -/
inductive Command where
  | CursorLeft
  | CursorRight
  | CursorDown
  | CursorUp
  | PageUp
  | PageDown
  | JumpTop
  | JumpBottom
  | NextBuffer
  | PrevBuffer
  | Resize (w h : Int)
  | Refresh
  | Quit
deriving DecidableEq

/-- The outcome of one event: the pager, the frame if the handler redrew,
and whether the handler returned from `main`. -/
structure Outcome where
  pager : Pager
  frame : Option Frame
  quit : Bool
deriving DecidableEq

/-- A handler branch that ends in `pager.drawContent()`. -/
def redraw (p : Pager) : Option Outcome :=
  match drawContent p with
  | none => none
  | some (p1, f) => some ⟨p1, some f, false⟩

/-- The lines of the current buffer, as every handler recomputes them. -/
def currentLines (p : Pager) : Option (List (List Char)) :=
  match index p.buffers p.currentFileIndex with
  | none => none
  | some buffer => some (splitLines buffer.Content)

/-- One iteration of the event loop of `main`; `initialViewOffset` is the
value the startup loop left in `*initialViewOffset`. -/
def step (initialViewOffset : Int) (p : Pager) : Command → Option Outcome
  | .Resize w h => redraw { p with screenWidth := w, screenHeight := h }
  | .Quit => some ⟨p, none, true⟩
  | .CursorLeft =>
    if p.cursorX > 0 then redraw { p with cursorX := p.cursorX - 1 }
    else some ⟨p, none, false⟩
  | .CursorRight =>
    match currentLines p with
    | none => none
    | some lines =>
      match index lines p.cursorY with
      | none => none
      | some line =>
        let lineLength : Int := line.length
        if p.cursorX < lineLength then redraw { p with cursorX := p.cursorX + 1 }
        else some ⟨p, none, false⟩
  | .CursorDown =>
    match currentLines p with
    | none => none
    | some lines =>
      if p.cursorY < (lines.length : Int) - 1 then
        let p1 := { p with cursorY := p.cursorY + 1 }
        let p2 :=
          if p1.cursorY - p1.viewOffset ≥ p1.screenHeight then
            { p1 with viewOffset := p1.viewOffset + 1 }
          else p1
        match index lines p2.cursorY with
        | none => none
        | some line =>
          let lineLength : Int := line.length
          let p3 := if p2.cursorX > lineLength then { p2 with cursorX := lineLength } else p2
          match drawContent p3 with
          | none => none
          | some (p4, f) =>
            some ⟨p4, some f,
              p4.quitAtEOF && decide (p4.cursorY = (lines.length : Int) - 1)⟩
      else some ⟨p, none, false⟩
  | .CursorUp =>
    if p.cursorY > 0 then
      let p1 := { p with cursorY := p.cursorY - 1 }
      let p2 :=
        if p1.cursorY < p1.viewOffset then { p1 with viewOffset := p1.viewOffset - 1 }
        else p1
      match currentLines p2 with
      | none => none
      | some lines =>
        match index lines p2.cursorY with
        | none => none
        | some line =>
          let lineLength : Int := line.length
          redraw (if p2.cursorX > lineLength then { p2 with cursorX := lineLength } else p2)
    else some ⟨p, none, false⟩
  | .PageUp =>
    let p1 := { p with cursorY := p.cursorY - 10 }
    let p2 := if p1.cursorY < 0 then { p1 with cursorY := 0 } else p1
    let p3 :=
      if p2.cursorY < p2.viewOffset then
        let q := { p2 with viewOffset := p2.viewOffset - 10 }
        if q.viewOffset < 0 then { q with viewOffset := 0 } else q
      else p2
    redraw p3
  | .PageDown =>
    match currentLines p with
    | none => none
    | some lines =>
      let p1 := { p with cursorY := p.cursorY + 10 }
      let p2 :=
        if p1.cursorY ≥ (lines.length : Int) then
          { p1 with cursorY := (lines.length : Int) - 1 }
        else p1
      let p3 :=
        if p2.cursorY - p2.viewOffset ≥ p2.screenHeight then
          { p2 with viewOffset := p2.viewOffset + 10 }
        else p2
      redraw p3
  | .JumpTop => redraw { p with cursorY := 0, viewOffset := 0 }
  | .JumpBottom =>
    match currentLines p with
    | none => none
    | some lines =>
      let p1 := { p with cursorY := (lines.length : Int) - 1 }
      let p2 := { p1 with viewOffset := p1.cursorY - p1.screenHeight + 1 }
      redraw (if p2.viewOffset < 0 then { p2 with viewOffset := 0 } else p2)
  | .NextBuffer =>
    if p.currentFileIndex < (p.buffers.length : Int) - 1 then
      redraw { p with
        currentFileIndex := p.currentFileIndex + 1
        cursorX := 0
        cursorY := initialViewOffset
        viewOffset := initialViewOffset }
    else some ⟨p, none, false⟩
  | .PrevBuffer =>
    if p.currentFileIndex > 0 then
      redraw { p with
        currentFileIndex := p.currentFileIndex - 1
        cursorX := 0
        cursorY := initialViewOffset
        viewOffset := initialViewOffset }
    else some ⟨p, none, false⟩
  | .Refresh => redraw p

/-- The event loop over a finite event sequence: the pager when the events
are used up or a handler returns from `main`. -/
def eventLoop (initialViewOffset : Int) : Pager → List Command → Option Pager
  | p, [] => some p
  | p, c :: cs =>
    match step initialViewOffset p c with
    | none => none
    | some out =>
      if out.quit then some out.pager else eventLoop initialViewOffset out.pager cs

/-- The loop "Ensure initial offset does not exceed the file length". -/
def clampOffset : List ContentBuffer → Int → Int
  | [], offset => offset
  | buffer :: rest, offset =>
    let lines : Int := (splitLines buffer.Content).length
    clampOffset rest (if offset ≥ lines then lines - 1 else offset)

/-- The display flags `--numbers`, `--relative`, `--quit`. -/
structure Flags where
  showNumbers : Bool
  relativeNumbers : Bool
  quitAtEOF : Bool
deriving DecidableEq

/-- The literal `Pager{...}` that `main` creates. -/
def newPager (buffers : List ContentBuffer) (initialViewOffset : Int) (w h : Int)
    (fl : Flags) : Pager :=
  { buffers := buffers
    cursorX := 0
    cursorY := initialViewOffset
    viewOffset := initialViewOffset
    screenWidth := w
    screenHeight := h
    currentFileIndex := 0
    showNumbers := fl.showNumbers
    relativeNumbers := fl.relativeNumbers
    quitAtEOF := fl.quitAtEOF }

/-- The startup of `main` from the loaded buffers, the `--offset` value, the
terminal size and the flags, up to and including the initial draw.  An empty
buffer list ends the program before a pager exists. -/
def main (buffers : List ContentBuffer) (offset : Int) (w h : Int) (fl : Flags) :
    Option (Int × Pager × Frame) :=
  if buffers.isEmpty then none
  else
    let initialViewOffset := clampOffset buffers offset
    match drawContent (newPager buffers initialViewOffset w h fl) with
    | none => none
    | some (p1, f) => some (initialViewOffset, p1, f)

/-- A whole session: startup, then the event loop over `cmds`. -/
def session (buffers : List ContentBuffer) (offset : Int) (w h : Int) (fl : Flags)
    (cmds : List Command) : Option Pager :=
  match main buffers offset w h fl with
  | none => none
  | some (initialViewOffset, p, _) => eventLoop initialViewOffset p cmds

/-- A buffer with the given text. -/
def mkBuffer (name text : String) : ContentBuffer :=
  ⟨name, text.toList⟩

/-! ## Specification vocabulary -/

/-- The line-number width `drawContent` computes for a buffer. -/
def lineNumberWidth (b : ContentBuffer) : Nat :=
  (sprintD ((splitLines b.Content).length : Int)).length

/-- The column `drawContent` leaves in `cursorX` when `b` is the current buffer. -/
def flooredX (p : Pager) (b : ContentBuffer) : Int :=
  if (p.showNumbers || p.relativeNumbers) ∧ p.cursorX < (lineNumberWidth b : Int) + 1 then
    (lineNumberWidth b : Int) + 1
  else p.cursorX

/-- The safety invariant of the event loop: the current buffer exists, the
cursor row is one of its lines, offsets and column are non-negative, and the
startup offset is a line of every buffer. -/
def Inv (init : Int) (p : Pager) : Prop :=
  (∃ b, index p.buffers p.currentFileIndex = some b ∧
      0 ≤ p.cursorY ∧ p.cursorY < ((splitLines b.Content).length : Int)) ∧
  0 ≤ p.viewOffset ∧ 0 ≤ p.cursorX ∧ 0 ≤ init ∧
  ∀ b ∈ p.buffers, init < ((splitLines b.Content).length : Int)

/-- The pager `CursorDown` hands to `drawContent` when it moves onto `line`:
row advanced, view scrolled by one if the cursor left the grid, column
clamped to the length of `line`. -/
def downMoved (p : Pager) (line : List Char) : Pager :=
  { p with
    cursorY := p.cursorY + 1
    viewOffset :=
      if p.cursorY + 1 - p.viewOffset ≥ p.screenHeight then p.viewOffset + 1
      else p.viewOffset
    cursorX := if p.cursorX > (line.length : Int) then (line.length : Int) else p.cursorX }

/-- The parts of a pager no handler writes: the buffers and the flags. -/
def setup (p : Pager) : List ContentBuffer × Bool × Bool × Bool :=
  (p.buffers, p.showNumbers, p.relativeNumbers, p.quitAtEOF)

/-- The column below which `drawContent` never leaves the cursor. -/
def gutterFloor (showNumbers relativeNumbers : Bool) (b : ContentBuffer) : Int :=
  if showNumbers || relativeNumbers then (lineNumberWidth b : Int) + 1 else 0

/-- The column bound the handlers keep: the cursor column is at most the
length of the cursor line, or the gutter floor when that is larger. -/
def ColInv (p : Pager) : Prop :=
  ∃ b line, index p.buffers p.currentFileIndex = some b ∧
    index (splitLines b.Content) p.cursorY = some line ∧
    p.cursorX ≤ max (line.length : Int) (gutterFloor p.showNumbers p.relativeNumbers b)

/-- The commands that move the cursor row without clamping the column. -/
def Command.isPageOrJump : Command → Bool
  | .PageUp => true
  | .PageDown => true
  | .JumpTop => true
  | .JumpBottom => true
  | _ => false

/-- The current index is a valid index of the buffer list. -/
def IdxOK (p : Pager) : Prop :=
  0 ≤ p.currentFileIndex ∧ p.currentFileIndex < (p.buffers.length : Int)

/-- The visibility condition on a grid with at least one row: the cursor's
screen row `cursorY - viewOffset` is at most `screenHeight - 1`. -/
def Vis (p : Pager) : Prop :=
  1 ≤ p.screenHeight ∧ p.cursorY - p.viewOffset ≤ p.screenHeight - 1

/-- Along the run of `cmds` from `p`, every `Resize` that the event loop
executes finds the cursor row on the new grid: the new height is at least 1 and
`cursorY - viewOffset` is at most the new height minus 1. -/
def resizesFit (init : Int) : Pager → List Command → Bool
  | _, [] => true
  | p, c :: cs =>
    (match c with
      | .Resize _ h1 => decide (1 ≤ h1 ∧ p.cursorY - p.viewOffset ≤ h1 - 1)
      | _ => true) &&
    (match step init p c with
      | none => true
      | some out => out.quit || resizesFit init out.pager cs)

/-- The same along a whole session, from the state after the initial draw. -/
def sessionResizesFit (buffers : List ContentBuffer) (offset : Int) (w h : Int) (fl : Flags)
    (cmds : List Command) : Bool :=
  match main buffers offset w h fl with
  | none => true
  | some (initialViewOffset, p, _) => resizesFit initialViewOffset p cmds

/-- The pager is as a redraw leaves it: `drawContent` would not move the column. -/
def Drawn (p : Pager) : Prop :=
  ∀ b, index p.buffers p.currentFileIndex = some b → flooredX p b = p.cursorX

/-- Where soft wrap puts the `i`-th rune of a line without tabs that starts
at column `s` of row `y0`, on a grid of width `W` with wrap column `P`: the
first row takes `W - s` runes, every later row `W - P` runes from column `P`. -/
def wrapPos (W P s : Nat) (y0 : Int) (i : Nat) : Int × Int :=
  if i < W - s then (((s + i : Nat) : Int), y0)
  else (((P + (i - (W - s)) % (W - P) : Nat) : Int),
        y0 + 1 + (((i - (W - s)) / (W - P) : Nat) : Int))

/-- The pen position before the `k`-th rune of such a line is written: one
column right of the previous rune. -/
def penBefore (W P s : Nat) (y0 : Int) (k : Nat) : Int × Int :=
  match k with
  | 0 => ((s : Int), y0)
  | j + 1 => ((wrapPos W P s y0 j).1 + 1, (wrapPos W P s y0 j).2)

/-- The (line index, screen row) pairs at which the line loop of `drawContent`
starts a source line, for the loop state of `drawLines`. -/
def rowStarts (p : Pager) (lines : List (List Char)) (lineNumberWidth : Nat) :
    Nat → Int → Int → List (Int × Int)
  | 0, _, _ => []
  | k + 1, lineNum, y =>
    if y ≥ p.screenHeight then []
    else
      match index lines lineNum with
      | none => []
      | some line =>
        (lineNum, y) ::
          rowStarts p lines lineNumberWidth k (lineNum + 1)
            ((drawRow p lineNumberWidth line lineNum y).2 + 1)

/-- The cells of a text written from column 0 of row `y`, one rune a column. -/
def textCells (text : List Char) (y : Int) : List Cell :=
  (text.enumFrom 0).map (fun kc => (⟨(kc.1 : Int), y, kc.2⟩ : Cell))


/-! ## Basic facts about the library functions -/

theorem splitAux_ne_nil (cur cs : List Char) : splitAux cur cs ≠ [] := by
  induction cs generalizing cur with
  | nil => simp [splitAux]
  | cons c cs ih =>
    unfold splitAux
    split
    · simp
    · exact ih _

theorem splitLines_length_pos (content : List Char) :
    0 < (splitLines content).length :=
  List.length_pos.mpr (splitAux_ne_nil [] content)

theorem index_eq_some_iff {α : Type} (xs : List α) (i : Int) (a : α) :
    index xs i = some a ↔ 0 ≤ i ∧ xs[i.toNat]? = some a := by
  unfold index
  split <;> simp [*]

theorem index_isSome {α : Type} (xs : List α) (i : Int) (h0 : 0 ≤ i)
    (h1 : i < xs.length) : ∃ a, index xs i = some a := by
  have h : i.toNat < xs.length := by omega
  exact ⟨xs[i.toNat], by simp [index, h0, List.getElem?_eq_getElem h]⟩

theorem index_bounds {α : Type} {xs : List α} {i : Int} {a : α}
    (h : index xs i = some a) : 0 ≤ i ∧ i < xs.length := by
  rw [index_eq_some_iff] at h
  obtain ⟨h0, h1⟩ := h
  have := (List.getElem?_eq_some_iff.mp h1).1
  omega

theorem index_mem {α : Type} {xs : List α} {i : Int} {a : α}
    (h : index xs i = some a) : a ∈ xs := by
  rw [index_eq_some_iff] at h
  exact List.getElem?_mem h.2

theorem drawLines_isSome (p : Pager) (lines : List (List Char)) (w : Nat) :
    ∀ (k : Nat) (lineNum y : Int), 0 ≤ lineNum → (0 < k → lineNum + k ≤ lines.length) →
      ∃ cells, drawLines p lines w k lineNum y = some cells := by
  intro k
  induction k with
  | zero => intro lineNum y _ _; exact ⟨[], rfl⟩
  | succ k ih =>
    intro lineNum y h0 h1
    have h2 := h1 (Nat.succ_pos k)
    unfold drawLines
    split
    · exact ⟨[], rfl⟩
    · obtain ⟨line, hl⟩ := index_isSome lines lineNum h0 (by push_cast at h2; omega)
      obtain ⟨rest, hr⟩ := ih (lineNum + 1) ((drawRow p w line lineNum y).2 + 1)
        (by omega) (by intro _; push_cast at h2 ⊢; omega)
      simp only [hl, hr]
      exact ⟨_, rfl⟩

theorem drawContent_pager {p p1 : Pager} {f : Frame} (h : drawContent p = some (p1, f)) :
    ∃ b, index p.buffers p.currentFileIndex = some b ∧
      p1 = { p with cursorX := flooredX p b } := by
  unfold drawContent at h
  split at h
  · exact absurd h (by simp)
  · rename_i b hb
    refine ⟨b, hb, ?_⟩
    simp only at h
    split at h
    · exact absurd h (by simp)
    · simp only [Option.some.injEq, Prod.mk.injEq] at h
      rw [← h.1]
      unfold flooredX lineNumberWidth
      split <;> rfl

theorem drawContent_isSome {p : Pager} {b : ContentBuffer}
    (hb : index p.buffers p.currentFileIndex = some b) (hv : 0 ≤ p.viewOffset) :
    ∃ f, drawContent p = some ({ p with cursorX := flooredX p b }, f) := by
  obtain ⟨cells, hc⟩ := drawLines_isSome p (splitLines b.Content)
    (sprintD ((splitLines b.Content).length : Int)).length
    (((splitLines b.Content).length : Int) - p.viewOffset).toNat p.viewOffset 0 hv (by omega)
  have hsome : ∃ r, drawContent p = some r := by
    unfold drawContent
    simp only [hb, hc]
    exact ⟨_, rfl⟩
  obtain ⟨⟨p1, f⟩, hr⟩ := hsome
  obtain ⟨b1, hb1, hp1⟩ := drawContent_pager hr
  rw [hb] at hb1
  cases hb1
  exact ⟨f, by rw [hr, hp1]⟩


/-! ## The event loop keeps the safety invariant -/

theorem flooredX_nonneg (p : Pager) (b : ContentBuffer) (h : 0 ≤ p.cursorX) :
    0 ≤ flooredX p b := by
  unfold flooredX
  split <;> omega

theorem redraw_inv {init : Int} {p : Pager} (h : Inv init p) :
    ∃ b f, index p.buffers p.currentFileIndex = some b ∧
      redraw p = some ⟨{ p with cursorX := flooredX p b }, some f, false⟩ ∧
      Inv init { p with cursorX := flooredX p b } := by
  obtain ⟨⟨b, hb, hy0, hy1⟩, hv, hx, hi0, hi1⟩ := h
  obtain ⟨f, hf⟩ := drawContent_isSome hb hv
  refine ⟨b, f, hb, ?_, ⟨b, hb, hy0, hy1⟩, hv, flooredX_nonneg p b hx, hi0, hi1⟩
  unfold redraw
  rw [hf]

theorem via_redraw {init : Int} {p q : Pager} {c : Command}
    (hs : step init p c = redraw q) (hq : Inv init q) (hb : setup q = setup p) :
    ∃ out, step init p c = some out ∧ Inv init out.pager ∧
      setup out.pager = setup p := by
  obtain ⟨b1, f, _, hr, hinv⟩ := redraw_inv hq
  exact ⟨_, hs.trans hr, hinv, hb⟩

theorem step_down_eq (init : Int) {p : Pager} {lines : List (List Char)}
    {line : List Char} (hcl : currentLines p = some lines)
    (hc : p.cursorY < (lines.length : Int) - 1)
    (hline : index lines (p.cursorY + 1) = some line) :
    step init p .CursorDown =
      match drawContent (downMoved p line) with
      | none => none
      | some (p4, f) =>
        some ⟨p4, some f, p4.quitAtEOF && decide (p4.cursorY = (lines.length : Int) - 1)⟩ := by
  by_cases h1 : p.cursorY + 1 - p.viewOffset ≥ p.screenHeight <;>
    by_cases h2 : p.cursorX > (line.length : Int) <;>
    simp [step, hcl, hc, downMoved, hline, h1, h2]

theorem step_inv {init : Int} {p : Pager} (h : Inv init p) (c : Command) :
    ∃ out, step init p c = some out ∧ Inv init out.pager ∧
      setup out.pager = setup p := by
  have h' := h
  obtain ⟨⟨b, hb, hy0, hy1⟩, hv, hx, hi0, hi1⟩ := h'
  have hcl : currentLines p = some (splitLines b.Content) := by
    unfold currentLines; rw [hb]
  obtain ⟨line, hline⟩ := index_isSome (splitLines b.Content) p.cursorY hy0 hy1
  cases c with
  | Quit => exact ⟨_, rfl, h, rfl⟩
  | Refresh => exact via_redraw rfl h rfl
  | Resize w h1 =>
    exact via_redraw rfl (⟨⟨b, hb, hy0, hy1⟩, hv, hx, hi0, hi1⟩ :
      Inv init { p with screenWidth := w, screenHeight := h1 }) rfl
  | CursorLeft =>
    by_cases hc : p.cursorX > 0
    · exact via_redraw (q := { p with cursorX := p.cursorX - 1 }) (by simp [step, hc])
        ⟨⟨b, hb, hy0, hy1⟩, hv, by simp only; omega, hi0, hi1⟩ rfl
    · exact ⟨⟨p, none, false⟩, by simp [step, hc], h, rfl⟩
  | CursorRight =>
    by_cases hc : p.cursorX < (line.length : Int)
    · exact via_redraw (q := { p with cursorX := p.cursorX + 1 })
        (by simp [step, hcl, hline, hc])
        ⟨⟨b, hb, hy0, hy1⟩, hv, by simp only; omega, hi0, hi1⟩ rfl
    · exact ⟨⟨p, none, false⟩, by simp [step, hcl, hline, hc], h, rfl⟩
  | JumpTop =>
    exact via_redraw (q := { p with cursorY := 0, viewOffset := 0 }) rfl
      ⟨⟨b, hb, le_refl _, by simp only; omega⟩, le_refl _, hx, hi0, hi1⟩ rfl
  | JumpBottom =>
    have hlen := splitLines_length_pos b.Content
    by_cases hc : ((splitLines b.Content).length : Int) - 1 - p.screenHeight + 1 < 0
    · exact via_redraw
        (q := { p with cursorY := ((splitLines b.Content).length : Int) - 1, viewOffset := 0 })
        (by simp [step, hcl, hc])
        ⟨⟨b, hb, by simp only; omega, by simp only; omega⟩, le_refl _, hx, hi0, hi1⟩ rfl
    · exact via_redraw
        (q := { p with cursorY := ((splitLines b.Content).length : Int) - 1,
                       viewOffset := ((splitLines b.Content).length : Int) - 1 - p.screenHeight + 1 })
        (by simp [step, hcl, hc])
        ⟨⟨b, hb, by simp only; omega, by simp only; omega⟩, by simp only; omega, hx, hi0, hi1⟩ rfl
  | CursorUp =>
    by_cases hc : p.cursorY > 0
    · obtain ⟨line1, hline1⟩ := index_isSome (splitLines b.Content) (p.cursorY - 1)
        (by omega) (by omega)
      refine via_redraw
        (q := { p with
          cursorY := p.cursorY - 1
          viewOffset := if p.cursorY - 1 < p.viewOffset then p.viewOffset - 1 else p.viewOffset
          cursorX := if p.cursorX > (line1.length : Int) then (line1.length : Int) else p.cursorX })
        ?_ ⟨⟨b, hb, by simp only; omega, by simp only; omega⟩,
          by simp only; split <;> omega, by simp only; split <;> omega, hi0, hi1⟩ rfl
      simp only [step, hc, if_true]
      split_ifs <;> simp [currentLines, hb, hline1, *]
    · exact ⟨⟨p, none, false⟩, by simp [step, hc], h, rfl⟩
  | PageUp =>
    refine via_redraw
      (q := { p with
        cursorY := if p.cursorY - 10 < 0 then 0 else p.cursorY - 10
        viewOffset :=
          if (if p.cursorY - 10 < 0 then 0 else p.cursorY - 10) < p.viewOffset then
            (if p.viewOffset - 10 < 0 then 0 else p.viewOffset - 10)
          else p.viewOffset })
      ?_ ⟨⟨b, hb, by simp only; split <;> omega, by simp only; split <;> omega⟩,
        by simp only; split_ifs <;> omega, hx, hi0, hi1⟩ rfl
    simp only [step]
    split_ifs <;> rfl
  | PageDown =>
    have hlen := splitLines_length_pos b.Content
    refine via_redraw
      (q := { p with
        cursorY :=
          if p.cursorY + 10 ≥ ((splitLines b.Content).length : Int) then
            ((splitLines b.Content).length : Int) - 1
          else p.cursorY + 10
        viewOffset :=
          if (if p.cursorY + 10 ≥ ((splitLines b.Content).length : Int) then
                ((splitLines b.Content).length : Int) - 1
              else p.cursorY + 10) - p.viewOffset ≥ p.screenHeight then
            p.viewOffset + 10
          else p.viewOffset })
      ?_ ⟨⟨b, hb, by simp only; split <;> omega, by simp only; split <;> omega⟩,
        by simp only; split_ifs <;> omega, hx, hi0, hi1⟩ rfl
    simp only [step, hcl]
    split_ifs <;> rfl
  | NextBuffer =>
    have hib := index_bounds hb
    by_cases hc : p.currentFileIndex < (p.buffers.length : Int) - 1
    · obtain ⟨b2, hb2⟩ := index_isSome p.buffers (p.currentFileIndex + 1) (by omega) (by omega)
      exact via_redraw
        (q := { p with
          currentFileIndex := p.currentFileIndex + 1
          cursorX := 0
          cursorY := init
          viewOffset := init })
        (by simp [step, hc])
        ⟨⟨b2, hb2, hi0, hi1 b2 (index_mem hb2)⟩, hi0, le_refl _, hi0, hi1⟩ rfl
    · exact ⟨⟨p, none, false⟩, by simp [step, hc], h, rfl⟩
  | PrevBuffer =>
    have hib := index_bounds hb
    by_cases hc : p.currentFileIndex > 0
    · obtain ⟨b2, hb2⟩ := index_isSome p.buffers (p.currentFileIndex - 1) (by omega) (by omega)
      exact via_redraw
        (q := { p with
          currentFileIndex := p.currentFileIndex - 1
          cursorX := 0
          cursorY := init
          viewOffset := init })
        (by simp [step, hc])
        ⟨⟨b2, hb2, hi0, hi1 b2 (index_mem hb2)⟩, hi0, le_refl _, hi0, hi1⟩ rfl
    · exact ⟨⟨p, none, false⟩, by simp [step, hc], h, rfl⟩
  | CursorDown =>
    by_cases hc : p.cursorY < ((splitLines b.Content).length : Int) - 1
    · obtain ⟨line1, hline1⟩ := index_isSome (splitLines b.Content) (p.cursorY + 1)
        (by omega) (by omega)
      have hq : Inv init (downMoved p line1) :=
        ⟨⟨b, hb, by simp only [downMoved]; omega, by simp only [downMoved]; omega⟩,
          by simp only [downMoved]; split <;> omega,
          by simp only [downMoved]; split <;> omega, hi0, hi1⟩
      obtain ⟨b1, f, hb1, _, hinv⟩ := redraw_inv hq
      obtain ⟨f1, hf1⟩ := drawContent_isSome hb1 hq.2.1
      rw [step_down_eq init hcl hc hline1, hf1]
      exact ⟨_, rfl, hinv, rfl⟩
    · exact ⟨⟨p, none, false⟩, by simp [step, hcl, hc], h, rfl⟩

/-! ## Startup -/

theorem clampOffset_le (buffers : List ContentBuffer) (offset : Int) :
    clampOffset buffers offset ≤ offset := by
  induction buffers generalizing offset with
  | nil => exact le_refl _
  | cons b rest ih =>
    unfold clampOffset
    refine le_trans (ih _) ?_
    split <;> omega

theorem clampOffset_nonneg (buffers : List ContentBuffer) (offset : Int)
    (h : 0 ≤ offset) : 0 ≤ clampOffset buffers offset := by
  induction buffers generalizing offset with
  | nil => exact h
  | cons b rest ih =>
    unfold clampOffset
    apply ih
    have := splitLines_length_pos b.Content
    split <;> omega

theorem clampOffset_lt (buffers : List ContentBuffer) (offset : Int) :
    ∀ b ∈ buffers, clampOffset buffers offset < ((splitLines b.Content).length : Int) := by
  induction buffers generalizing offset with
  | nil => intro b hb; cases hb
  | cons b0 rest ih =>
    intro b hb
    unfold clampOffset
    rcases List.mem_cons.mp hb with rfl | hb
    · refine lt_of_le_of_lt (clampOffset_le _ _) ?_
      split <;> omega
    · exact ih _ b hb

theorem main_inv (buffers : List ContentBuffer) (hne : buffers ≠ []) (offset : Int)
    (h0 : 0 ≤ offset) (w h : Int) (fl : Flags) :
    ∃ b f, index buffers 0 = some b ∧
      main buffers offset w h fl = some (clampOffset buffers offset,
        { newPager buffers (clampOffset buffers offset) w h fl with
          cursorX := flooredX (newPager buffers (clampOffset buffers offset) w h fl) b }, f) ∧
      Inv (clampOffset buffers offset)
        { newPager buffers (clampOffset buffers offset) w h fl with
          cursorX := flooredX (newPager buffers (clampOffset buffers offset) w h fl) b } := by
  obtain ⟨b0, rest, rfl⟩ := List.exists_cons_of_ne_nil hne
  have hlt := clampOffset_lt (b0 :: rest) offset
  have hnn := clampOffset_nonneg (b0 :: rest) offset h0
  have hq : Inv (clampOffset (b0 :: rest) offset)
      (newPager (b0 :: rest) (clampOffset (b0 :: rest) offset) w h fl) :=
    ⟨⟨b0, by simp [index, newPager], hnn, hlt b0 (List.mem_cons_self _ _)⟩,
      hnn, le_refl _, hnn, hlt⟩
  obtain ⟨b1, f, hb1, _, hinv⟩ := redraw_inv hq
  obtain ⟨f1, hf1⟩ := drawContent_isSome hb1 hq.2.1
  refine ⟨b1, f1, hb1, ?_, hinv⟩
  simp only [main, List.isEmpty_cons, Bool.false_eq_true, if_false, hf1]

theorem eventLoop_inv {init : Int} (cmds : List Command) :
    ∀ {p : Pager}, Inv init p →
      ∃ p1, eventLoop init p cmds = some p1 ∧ Inv init p1 ∧ setup p1 = setup p := by
  induction cmds with
  | nil => intro p h; exact ⟨p, rfl, h, rfl⟩
  | cons c cs ih =>
    intro p h
    obtain ⟨out, hs, hinv, hb⟩ := step_inv h c
    unfold eventLoop
    rw [hs]
    by_cases hq : out.quit = true
    · exact ⟨out.pager, by simp [hq], hinv, hb⟩
    · obtain ⟨p1, h1, h2, h3⟩ := ih hinv
      exact ⟨p1, by simp [hq, h1], h2, h3.trans hb⟩

theorem session_inv (buffers : List ContentBuffer) (hne : buffers ≠ []) (offset : Int)
    (h0 : 0 ≤ offset) (w h : Int) (fl : Flags) (cmds : List Command) :
    ∃ p, session buffers offset w h fl cmds = some p ∧
      Inv (clampOffset buffers offset) p ∧
      setup p = (buffers, fl.showNumbers, fl.relativeNumbers, fl.quitAtEOF) := by
  obtain ⟨b, f, _, hm, hinv⟩ := main_inv buffers hne offset h0 w h fl
  obtain ⟨p1, h1, h2, h3⟩ := eventLoop_inv cmds hinv
  exact ⟨p1, by simp [session, hm, h1], h2, h3⟩

/-! ## The cursor row -/

/-- C1: from the initial state of any non-empty buffer list with a non-negative
requested offset, every finite command sequence runs without an index panic,
and the state it leaves has `0 ≤ cursorY < lineCount` for the current buffer,
where `lineCount` is the number of pieces of the content split on line feed.
Since the sequence is arbitrary, this covers the state after each command. -/
theorem cursorRow_in_range (buffers : List ContentBuffer) (hne : buffers ≠ [])
    (offset : Int) (h0 : 0 ≤ offset) (w h : Int) (fl : Flags) (cmds : List Command) :
    ∃ p b, session buffers offset w h fl cmds = some p ∧
      index buffers p.currentFileIndex = some b ∧
      0 ≤ p.cursorY ∧ p.cursorY < ((splitLines b.Content).length : Int) ∧
      ∃ line, index (splitLines b.Content) p.cursorY = some line := by
  obtain ⟨p, hs, ⟨⟨b, hb, hy0, hy1⟩, _⟩, hset⟩ :=
    session_inv buffers hne offset h0 w h fl cmds
  have hbuf : p.buffers = buffers := congrArg Prod.fst hset
  rw [hbuf] at hb
  exact ⟨p, b, hs, hb, hy0, hy1, index_isSome _ _ hy0 hy1⟩

theorem cursorRow_in_range_witness :
    [mkBuffer "f" "a\nbb\nccc"] ≠ [] ∧ (0 : Int) ≤ 1 ∧
    ∃ p b, session [mkBuffer "f" "a\nbb\nccc"] 1 80 24 ⟨false, false, false⟩
        [.CursorDown, .PageDown, .CursorUp] = some p ∧
      index [mkBuffer "f" "a\nbb\nccc"] p.currentFileIndex = some b ∧
      0 ≤ p.cursorY ∧ p.cursorY < ((splitLines b.Content).length : Int) ∧
      ∃ line, index (splitLines b.Content) p.cursorY = some line :=
  ⟨by simp, by decide,
    cursorRow_in_range [mkBuffer "f" "a\nbb\nccc"] (by simp) 1 (by decide) 80 24
      ⟨false, false, false⟩ [.CursorDown, .PageDown, .CursorUp]⟩

/-! ## The column bound -/

theorem redraw_pager {q : Pager} {out : Outcome} (h : redraw q = some out) :
    ∃ b, index q.buffers q.currentFileIndex = some b ∧
      out.pager = { q with cursorX := flooredX q b } := by
  unfold redraw at h
  split at h
  · exact absurd h (by simp)
  · rename_i p1 f hd
    obtain ⟨b, hb, hp⟩ := drawContent_pager hd
    simp only [Option.some.injEq] at h
    exact ⟨b, hb, by rw [← h, hp]⟩

theorem flooredX_le (q : Pager) (b : ContentBuffer) (n : Int)
    (h : q.cursorX ≤ max n (gutterFloor q.showNumbers q.relativeNumbers b)) :
    flooredX q b ≤ max n (gutterFloor q.showNumbers q.relativeNumbers b) := by
  unfold flooredX
  split
  · rename_i hc
    simp only [gutterFloor, hc.1, if_true]
    exact le_max_right _ _
  · exact h

theorem drawContent_col {q p1 : Pager} {f : Frame} (hq : ColInv q)
    (hd : drawContent q = some (p1, f)) : ColInv p1 := by
  obtain ⟨b, line, hb, hl, hx⟩ := hq
  obtain ⟨b1, hb1, hp⟩ := drawContent_pager hd
  rw [hb] at hb1
  cases hb1
  subst hp
  exact ⟨b, line, hb, hl, flooredX_le q b _ hx⟩

theorem redraw_col {q : Pager} {out : Outcome} (hq : ColInv q)
    (hd : redraw q = some out) : ColInv out.pager := by
  unfold redraw at hd
  split at hd
  · exact absurd hd (by simp)
  · rename_i p1 f hd1
    simp only [Option.some.injEq] at hd
    rw [← hd]
    exact drawContent_col hq hd1

theorem step_col {init : Int} {p : Pager} (hinv : Inv init p) (hcol : ColInv p)
    {c : Command} (hc : c.isPageOrJump = false) {out : Outcome}
    (hs : step init p c = some out) : ColInv out.pager := by
  obtain ⟨⟨b, hb, hy0, hy1⟩, hv, hx, hi0, hi1⟩ := hinv
  obtain ⟨b', line, hb', hline, hle⟩ := hcol
  rw [hb] at hb'
  cases hb'
  have hcl : currentLines p = some (splitLines b.Content) := by
    unfold currentLines; rw [hb]
  have hcolp : ColInv p := ⟨b, line, hb, hline, hle⟩
  cases c with
  | PageUp => cases hc
  | PageDown => cases hc
  | JumpTop => cases hc
  | JumpBottom => cases hc
  | Quit =>
    simp only [step, Option.some.injEq] at hs
    rw [← hs]; exact hcolp
  | Refresh => exact redraw_col hcolp hs
  | Resize w h1 =>
    exact redraw_col (q := { p with screenWidth := w, screenHeight := h1 })
      ⟨b, line, hb, hline, hle⟩ hs
  | CursorLeft =>
    by_cases h1 : p.cursorX > 0
    · simp only [step, h1, if_true] at hs
      exact redraw_col (q := { p with cursorX := p.cursorX - 1 })
        ⟨b, line, hb, hline, by simp only; omega⟩ hs
    · simp only [step, h1, if_false, Option.some.injEq] at hs
      rw [← hs]; exact hcolp
  | CursorRight =>
    by_cases h1 : p.cursorX < (line.length : Int)
    · simp only [step, hcl, hline, h1, if_true] at hs
      exact redraw_col (q := { p with cursorX := p.cursorX + 1 })
        ⟨b, line, hb, hline, by simp only; exact le_trans (by omega) (le_max_left _ _)⟩ hs
    · simp only [step, hcl, hline, h1, if_false, Option.some.injEq] at hs
      rw [← hs]; exact hcolp
  | CursorDown =>
    by_cases h1 : p.cursorY < ((splitLines b.Content).length : Int) - 1
    · obtain ⟨line1, hline1⟩ := index_isSome (splitLines b.Content) (p.cursorY + 1)
        (by omega) (by omega)
      rw [step_down_eq init hcl h1 hline1] at hs
      split at hs
      · exact absurd hs (by simp)
      · rename_i p4 f hd
        simp only [Option.some.injEq] at hs
        rw [← hs]
        refine drawContent_col (q := downMoved p line1) ⟨b, line1, hb, hline1, ?_⟩ hd
        simp only [downMoved]
        refine le_trans ?_ (le_max_left _ _)
        split <;> omega
    · simp only [step, hcl, h1, if_false, Option.some.injEq] at hs
      rw [← hs]; exact hcolp
  | CursorUp =>
    by_cases h1 : p.cursorY > 0
    · obtain ⟨line1, hline1⟩ := index_isSome (splitLines b.Content) (p.cursorY - 1)
        (by omega) (by omega)
      have hs1 : redraw { p with
          cursorY := p.cursorY - 1
          viewOffset := if p.cursorY - 1 < p.viewOffset then p.viewOffset - 1 else p.viewOffset
          cursorX := if p.cursorX > (line1.length : Int) then (line1.length : Int) else p.cursorX }
          = some out := by
        rw [← hs]
        simp only [step, h1, if_true]
        split_ifs <;> simp [currentLines, hb, hline1, *]
      refine redraw_col ?_ hs1
      refine ⟨b, line1, hb, hline1, ?_⟩
      simp only
      refine le_trans ?_ (le_max_left _ _)
      split <;> omega
    · simp only [step, h1, if_false, Option.some.injEq] at hs
      rw [← hs]; exact hcolp
  | NextBuffer =>
    have hib := index_bounds hb
    by_cases h1 : p.currentFileIndex < (p.buffers.length : Int) - 1
    · obtain ⟨b2, hb2⟩ := index_isSome p.buffers (p.currentFileIndex + 1) (by omega) (by omega)
      obtain ⟨line2, hline2⟩ := index_isSome (splitLines b2.Content) init hi0
        (hi1 b2 (index_mem hb2))
      simp only [step, h1, if_true] at hs
      refine redraw_col ?_ hs
      refine ⟨b2, line2, hb2, hline2, ?_⟩
      simp only
      exact le_trans (by omega) (le_max_left _ _)
    · simp only [step, h1, if_false, Option.some.injEq] at hs
      rw [← hs]; exact hcolp
  | PrevBuffer =>
    have hib := index_bounds hb
    by_cases h1 : p.currentFileIndex > 0
    · obtain ⟨b2, hb2⟩ := index_isSome p.buffers (p.currentFileIndex - 1) (by omega) (by omega)
      obtain ⟨line2, hline2⟩ := index_isSome (splitLines b2.Content) init hi0
        (hi1 b2 (index_mem hb2))
      simp only [step, h1, if_true] at hs
      refine redraw_col ?_ hs
      refine ⟨b2, line2, hb2, hline2, ?_⟩
      simp only
      exact le_trans (by omega) (le_max_left _ _)
    · simp only [step, h1, if_false, Option.some.injEq] at hs
      rw [← hs]; exact hcolp

theorem eventLoop_col {init : Int} (cmds : List Command)
    (hc : ∀ c ∈ cmds, c.isPageOrJump = false) :
    ∀ {p p1 : Pager}, Inv init p → ColInv p → eventLoop init p cmds = some p1 →
      ColInv p1 := by
  induction cmds with
  | nil =>
    intro p p1 _ hcol h
    simp only [eventLoop, Option.some.injEq] at h
    rw [← h]; exact hcol
  | cons c cs ih =>
    intro p p1 hinv hcol h
    obtain ⟨out, hs, hinv1, _⟩ := step_inv hinv c
    have hcol1 := step_col hinv hcol (hc c (List.mem_cons_self _ _)) hs
    unfold eventLoop at h
    rw [hs] at h
    by_cases hq : out.quit = true
    · simp only [hq, if_true, Option.some.injEq] at h
      rw [← h]; exact hcol1
    · simp only [hq, if_false] at h
      exact ih (fun c hc1 => hc c (List.mem_cons_of_mem _ hc1)) hinv1 hcol1 h

theorem floored_col {q : Pager} {b : ContentBuffer} (hq : ColInv q)
    (hb : index q.buffers q.currentFileIndex = some b) :
    ColInv { q with cursorX := flooredX q b } := by
  obtain ⟨b1, line, hb1, hl, hx⟩ := hq
  rw [hb] at hb1
  cases hb1
  exact ⟨b, line, hb, hl, flooredX_le q b _ hx⟩

theorem session_col (buffers : List ContentBuffer) (hne : buffers ≠ []) (offset : Int)
    (h0 : 0 ≤ offset) (w h : Int) (fl : Flags) (cmds : List Command)
    (hc : ∀ c ∈ cmds, c.isPageOrJump = false) {p : Pager}
    (hs : session buffers offset w h fl cmds = some p) : ColInv p := by
  obtain ⟨b, f, hb, hm, hinv⟩ := main_inv buffers hne offset h0 w h fl
  simp only [session, hm] at hs
  refine eventLoop_col cmds hc hinv ?_ hs
  obtain ⟨line, hline⟩ := index_isSome (splitLines b.Content) (clampOffset buffers offset)
    (clampOffset_nonneg buffers offset h0) (clampOffset_lt buffers offset b (index_mem hb))
  refine floored_col ⟨b, line, hb, hline, ?_⟩ hb
  simp only [newPager]
  exact le_trans (by omega) (le_max_left _ _)

/-- C2 (counterexample): the column can exceed the line length.  With
`--numbers` on the one-line buffer "a", the redraw of `Refresh` leaves the
cursor in column 2 of a line of length 1; with no flag, on "abc\n", three
`CursorRight` and a `PageDown` leave the cursor in column 3 of the empty
last line. -/
theorem cursorCol_bound_counterexample :
    ((session [mkBuffer "f" "a"] 0 80 24 ⟨true, false, false⟩ [.Refresh]).map
        (fun p => (p.currentFileIndex, p.cursorY, p.cursorX)) = some (0, 0, 2) ∧
      index (splitLines (mkBuffer "f" "a").Content) 0 = some ['a'] ∧
      ¬ ((2 : Int) ≤ (['a'].length : Int))) ∧
    ((session [mkBuffer "f" "abc\n"] 0 80 24 ⟨false, false, false⟩
        [.CursorRight, .CursorRight, .CursorRight, .PageDown]).map
        (fun p => (p.currentFileIndex, p.cursorY, p.cursorX)) = some (0, 1, 3) ∧
      index (splitLines (mkBuffer "f" "abc\n").Content) 1 = some [] ∧
      ¬ ((3 : Int) ≤ (([] : List Char).length : Int))) := by
  decide

/-- C2 (amended): from the initial state of any non-empty buffer list with a
non-negative requested offset, under any flags, after every command of a
sequence without PageUp, PageDown, JumpTop and JumpBottom the cursor column
satisfies `0 ≤ cursorX ≤ max (length of the cursor line) floor`, where `floor`
is `lineNumberWidth + 1` when a number flag is set and `0` otherwise; with both
number flags off this is `0 ≤ cursorX ≤ length of the cursor line`. -/
theorem cursorCol_bound (buffers : List ContentBuffer) (hne : buffers ≠ [])
    (offset : Int) (h0 : 0 ≤ offset) (w h : Int) (fl : Flags) (cmds : List Command)
    (hc : ∀ c ∈ cmds, c.isPageOrJump = false) :
    ∃ p b line, session buffers offset w h fl cmds = some p ∧
      index buffers p.currentFileIndex = some b ∧
      index (splitLines b.Content) p.cursorY = some line ∧
      0 ≤ p.cursorX ∧
      p.cursorX ≤ max (line.length : Int) (gutterFloor fl.showNumbers fl.relativeNumbers b) ∧
      (fl.showNumbers = false → fl.relativeNumbers = false →
        p.cursorX ≤ (line.length : Int)) := by
  obtain ⟨p, hs, hinv, hset⟩ := session_inv buffers hne offset h0 w h fl cmds
  obtain ⟨b, line, hb, hline, hx⟩ := session_col buffers hne offset h0 w h fl cmds hc hs
  have hbuf : p.buffers = buffers := congrArg Prod.fst hset
  have hsn : p.showNumbers = fl.showNumbers := congrArg (fun s => s.2.1) hset
  have hrn : p.relativeNumbers = fl.relativeNumbers := congrArg (fun s => s.2.2.1) hset
  rw [hbuf] at hb
  rw [hsn, hrn] at hx
  refine ⟨p, b, line, hs, hb, hline, hinv.2.2.1, hx, ?_⟩
  intro h1 h2
  rw [h1, h2] at hx
  simpa [gutterFloor] using hx

theorem cursorCol_bound_witness :
    [mkBuffer "f" "abc\nd"] ≠ [] ∧ (0 : Int) ≤ 0 ∧
    (∀ c ∈ [Command.CursorRight, Command.CursorRight, Command.CursorDown],
      c.isPageOrJump = false) ∧
    ∃ p b line, session [mkBuffer "f" "abc\nd"] 0 80 24 ⟨true, false, false⟩
        [.CursorRight, .CursorRight, .CursorDown] = some p ∧
      index [mkBuffer "f" "abc\nd"] p.currentFileIndex = some b ∧
      index (splitLines b.Content) p.cursorY = some line ∧
      0 ≤ p.cursorX ∧
      p.cursorX ≤ max (line.length : Int) (gutterFloor true false b) ∧
      ((true : Bool) = false → (false : Bool) = false → p.cursorX ≤ (line.length : Int)) :=
  ⟨by simp, by decide, by decide,
    cursorCol_bound [mkBuffer "f" "abc\nd"] (by simp) 0 (by decide) 80 24
      ⟨true, false, false⟩ [.CursorRight, .CursorRight, .CursorDown] (by decide)⟩

/-! ## The shape of a handler -/

theorem redraw_shape {q : Pager} {out : Outcome} (h : redraw q = some out) :
    ∃ f, drawContent q = some (out.pager, f) := by
  unfold redraw at h
  split at h
  · exact absurd h (by simp)
  · rename_i p1 f hd
    simp only [Option.some.injEq] at h
    exact ⟨f, by rw [← h, hd]⟩

theorem step_shape {init : Int} {p : Pager} {c : Command} {out : Outcome}
    (hs : step init p c = some out) :
    out.pager = p ∨
    ∃ q f, drawContent q = some (out.pager, f) ∧ setup q = setup p ∧
      (q.currentFileIndex = p.currentFileIndex ∨
        (q.currentFileIndex = p.currentFileIndex + 1 ∧
          p.currentFileIndex < (p.buffers.length : Int) - 1) ∨
        (q.currentFileIndex = p.currentFileIndex - 1 ∧ 0 < p.currentFileIndex)) := by
  cases c <;> simp only [step] at hs <;> (repeat' split at hs) <;>
    first
    | (cases hs; done)
    | (simp only [Option.some.injEq] at hs; left; rw [← hs]; done)
    | (right
       refine Exists.elim (redraw_shape hs) ?_
       intro f hf
       refine ⟨_, f, hf, ?_, ?_⟩
       · rfl
       · first
         | (left; rfl)
         | (right; left; exact ⟨rfl, by assumption⟩)
         | (right; right; exact ⟨rfl, by assumption⟩))
    | (right
       simp only [Option.some.injEq] at hs
       rename_i hd
       rw [← hs]
       refine ⟨_, _, hd, ?_, ?_⟩
       · first | rfl | (split_ifs <;> rfl)
       · left; first | rfl | (split_ifs <;> rfl))

theorem step_idx {init : Int} {p : Pager} {c : Command} {out : Outcome}
    (hs : step init p c = some out) (h : IdxOK p) :
    IdxOK out.pager ∧ setup out.pager = setup p := by
  rcases step_shape hs with hp | ⟨q, f, hd, hset, hidx⟩
  · rw [hp]; exact ⟨h, rfl⟩
  · obtain ⟨b, _, hq⟩ := drawContent_pager hd
    have hbuf : q.buffers = p.buffers := congrArg Prod.fst hset
    rw [hq]
    refine ⟨?_, hset⟩
    unfold IdxOK at h ⊢
    simp only [hbuf]
    omega

theorem eventLoop_idx {init : Int} (cmds : List Command) :
    ∀ {p p1 : Pager}, IdxOK p → eventLoop init p cmds = some p1 →
      IdxOK p1 ∧ setup p1 = setup p := by
  induction cmds with
  | nil =>
    intro p p1 hp h
    simp only [eventLoop, Option.some.injEq] at h
    rw [← h]; exact ⟨hp, rfl⟩
  | cons c cs ih =>
    intro p p1 hp h
    unfold eventLoop at h
    split at h
    · exact absurd h (by simp)
    · rename_i out hs
      obtain ⟨h1, h2⟩ := step_idx hs hp
      by_cases hq : out.quit = true
      · simp only [hq, if_true, Option.some.injEq] at h
        rw [← h]; exact ⟨h1, h2⟩
      · simp only [hq, if_false] at h
        obtain ⟨h3, h4⟩ := ih h1 h
        exact ⟨h3, h4.trans h2⟩

theorem session_idx {buffers : List ContentBuffer} (hne : buffers ≠ []) {offset w h : Int}
    {fl : Flags} {cmds : List Command} {p : Pager}
    (hs : session buffers offset w h fl cmds = some p) :
    IdxOK p ∧ setup p = (buffers, fl.showNumbers, fl.relativeNumbers, fl.quitAtEOF) := by
  unfold session at hs
  split at hs
  · exact absurd hs (by simp)
  · rename_i init p0 f hm
    unfold main at hm
    split at hm
    · exact absurd hm (by simp)
    · simp only at hm
      split at hm
      · exact absurd hm (by simp)
      · rename_i p1 f1 hd
        simp only [Option.some.injEq, Prod.mk.injEq] at hm
        obtain ⟨b, _, hp1⟩ := drawContent_pager hd
        have h0 : IdxOK p0 := by
          rw [← hm.2.1, hp1]
          have := List.length_pos.mpr hne
          simp only [IdxOK, newPager]
          omega
        obtain ⟨h1, h2⟩ := eventLoop_idx cmds h0 hs
        refine ⟨h1, h2.trans ?_⟩
        rw [← hm.2.1, hp1]
        rfl

/-- C3 (the code at the failing input): on the five-line buffer "a\nb\nc\nd\ne"
and an 80x2 grid, one `PageDown` from the initial state leaves `cursorY = 4`
and `viewOffset = 10`, above the cursor row and past the last line, and its
redraw writes no cell and hides the cursor. -/
theorem pageDown_viewOffset_overshoot :
    (splitLines (mkBuffer "f" "a\nb\nc\nd\ne").Content).length = 5 ∧
    (session [mkBuffer "f" "a\nb\nc\nd\ne"] 0 80 2 ⟨false, false, false⟩ [.PageDown]).map
        (fun p => (p.cursorY, p.viewOffset)) = some (4, 10) ∧
    ((main [mkBuffer "f" "a\nb\nc\nd\ne"] 0 80 2 ⟨false, false, false⟩).bind
        (fun s => step s.1 s.2.1 .PageDown)).map (fun out => out.frame)
      = some (some ⟨[], none⟩) := by
  decide

/-- C4: from the initial state of any non-empty buffer list, after every
command of any finite sequence the current index satisfies
`0 ≤ currentFileIndex < len(buffers)`; the sequence always runs to a state when
the requested offset is non-negative; and in such a state `NextBuffer` on the
last buffer and `PrevBuffer` on the first buffer change nothing at all. -/
theorem activeBuffer_in_range (buffers : List ContentBuffer) (hne : buffers ≠ [])
    (offset w h : Int) (fl : Flags) (cmds : List Command) :
    (0 ≤ offset → ∃ p, session buffers offset w h fl cmds = some p) ∧
    ∀ p, session buffers offset w h fl cmds = some p →
      0 ≤ p.currentFileIndex ∧ p.currentFileIndex < (buffers.length : Int) ∧
      (p.currentFileIndex = (buffers.length : Int) - 1 →
        ∀ init, step init p .NextBuffer = some ⟨p, none, false⟩) ∧
      (p.currentFileIndex = 0 →
        ∀ init, step init p .PrevBuffer = some ⟨p, none, false⟩) := by
  refine ⟨fun h0 => ?_, fun p hs => ?_⟩
  · obtain ⟨p, hs, _⟩ := session_inv buffers hne offset h0 w h fl cmds
    exact ⟨p, hs⟩
  · obtain ⟨⟨h1, h2⟩, hset⟩ := session_idx hne hs
    have hbuf : p.buffers = buffers := congrArg Prod.fst hset
    rw [hbuf] at h2
    refine ⟨h1, h2, fun hl init => ?_, fun hf init => ?_⟩
    · simp [step, hbuf, hl]
    · simp [step, hf]

theorem activeBuffer_in_range_witness :
    [mkBuffer "f" "a", mkBuffer "g" "b\nc"] ≠ [] ∧
    ((0 : Int) ≤ 0 → ∃ p, session [mkBuffer "f" "a", mkBuffer "g" "b\nc"] 0 80 24
        ⟨false, false, false⟩ [.NextBuffer, .NextBuffer] = some p) ∧
    ∀ p, session [mkBuffer "f" "a", mkBuffer "g" "b\nc"] 0 80 24
        ⟨false, false, false⟩ [.NextBuffer, .NextBuffer] = some p →
      0 ≤ p.currentFileIndex ∧
      p.currentFileIndex < (([mkBuffer "f" "a", mkBuffer "g" "b\nc"].length : Nat) : Int) ∧
      (p.currentFileIndex = (([mkBuffer "f" "a", mkBuffer "g" "b\nc"].length : Nat) : Int) - 1 →
        ∀ init, step init p .NextBuffer = some ⟨p, none, false⟩) ∧
      (p.currentFileIndex = 0 →
        ∀ init, step init p .PrevBuffer = some ⟨p, none, false⟩) :=
  ⟨by simp,
    activeBuffer_in_range [mkBuffer "f" "a", mkBuffer "g" "b\nc"] (by simp) 0 80 24
      ⟨false, false, false⟩ [.NextBuffer, .NextBuffer]⟩

/-! ## Visibility of the cursor row -/

theorem drawContent_vis {q p1 : Pager} {f : Frame} (hq : Vis q)
    (hd : drawContent q = some (p1, f)) : Vis p1 := by
  obtain ⟨b, _, hp⟩ := drawContent_pager hd
  rw [hp]
  exact hq

theorem redraw_vis {q : Pager} {out : Outcome} (hq : Vis q)
    (hd : redraw q = some out) : Vis out.pager := by
  obtain ⟨f, hf⟩ := redraw_shape hd
  exact drawContent_vis hq hf

theorem step_vis {init : Int} {p : Pager} {c : Command} {out : Outcome}
    (hy : 0 ≤ p.cursorY) (hvis : Vis p)
    (hres : ∀ w h1, c = .Resize w h1 → p.screenHeight ≤ h1)
    (hs : step init p c = some out) : Vis out.pager := by
  obtain ⟨hh, hv⟩ := hvis
  cases c <;> simp only [step] at hs <;> (repeat' split at hs) <;>
    first
    | (cases hs; done)
    | (simp only [Option.some.injEq] at hs; rw [← hs]; exact ⟨hh, hv⟩)
    | (refine redraw_vis ?_ hs
       have hr := hres _ _ rfl
       simp only [Vis]
       omega)
    | (refine redraw_vis ?_ hs
       simp only [Vis, gt_iff_lt, ge_iff_le] at *
       omega)
    | (simp only [Option.some.injEq] at hs
       rename_i hd
       rw [← hs]
       refine drawContent_vis ?_ hd
       simp only [Vis, gt_iff_lt, ge_iff_le] at *
       split_ifs <;> simp only <;> omega)

theorem step_vis_resize {init : Int} {p : Pager} {w1 h1 : Int} {out : Outcome}
    (hs : step init p (.Resize w1 h1) = some out) :
    Vis out.pager ↔ 1 ≤ h1 ∧ p.cursorY - p.viewOffset ≤ h1 - 1 := by
  simp only [step] at hs
  obtain ⟨b, _, hq⟩ := redraw_pager hs
  rw [hq]
  exact Iff.rfl

theorem step_vis_jump {init : Int} {p : Pager} {c : Command} {out : Outcome}
    (hc : c = .JumpTop ∨ c = .JumpBottom) (hH : 1 ≤ p.screenHeight)
    (hs : step init p c = some out) : Vis out.pager := by
  rcases hc with rfl | rfl <;> simp only [step] at hs <;> (repeat' split at hs) <;>
    first
    | (refine redraw_vis ?_ hs
       simp only [Vis, gt_iff_lt, ge_iff_le] at *
       omega)
    | cases hs

theorem step_vis_switch {init : Int} {p : Pager} {c : Command} {out : Outcome}
    (hc : c = .NextBuffer ∨ c = .PrevBuffer)
    (hne : out.pager.currentFileIndex ≠ p.currentFileIndex) (hH : 1 ≤ p.screenHeight)
    (hs : step init p c = some out) : Vis out.pager := by
  rcases hc with rfl | rfl <;> simp only [step] at hs <;> (repeat' split at hs) <;>
    first
    | (cases hs; done)
    | (simp only [Option.some.injEq] at hs
       rw [← hs] at hne
       exact absurd rfl hne)
    | (refine redraw_vis ?_ hs
       simp only [Vis, gt_iff_lt, ge_iff_le] at *
       omega)

theorem eventLoop_fit {init : Int} (cmds : List Command) :
    ∀ {p p1 : Pager}, Inv init p → Vis p → resizesFit init p cmds = true →
      eventLoop init p cmds = some p1 → Vis p1 := by
  induction cmds with
  | nil =>
    intro p p1 _ hvis _ h
    simp only [eventLoop, Option.some.injEq] at h
    rw [← h]; exact hvis
  | cons c cs ih =>
    intro p p1 hinv hvis hfit h
    obtain ⟨out, hs, hinv1, _⟩ := step_inv hinv c
    have hy : 0 ≤ p.cursorY := by
      obtain ⟨⟨b, _, hy0, _⟩, _⟩ := hinv
      exact hy0
    unfold resizesFit at hfit
    simp only [hs, Bool.and_eq_true, Bool.or_eq_true] at hfit
    obtain ⟨hfit1, hfit2⟩ := hfit
    have hvis1 : Vis out.pager := by
      cases c with
      | Resize w1 h1 =>
        simp only [decide_eq_true_eq] at hfit1
        exact (step_vis_resize hs).mpr hfit1
      | _ => exact step_vis hy hvis (fun w1 h1 hc => by cases hc) hs
    unfold eventLoop at h
    rw [hs] at h
    by_cases hq : out.quit = true
    · simp only [hq, if_true, Option.some.injEq] at h
      rw [← h]; exact hvis1
    · simp only [hq, if_false] at h
      rcases hfit2 with hq1 | hrest
      · exact absurd hq1 hq
      · exact ih hinv1 hvis1 hrest h

/-- C5 (counterexample): the cursor row can be off screen after a command that
is not a `Resize`.  On "a\nb\nc" and an 80x24 grid, `JumpBottom`, a `Resize` to
80x2 and then `Refresh` leave `cursorY - viewOffset = 2 > gridHeight - 1 = 1`;
and on a grid of height 0 a single `Refresh` leaves `0 > gridHeight - 1 = -1`. -/
theorem cursor_row_visible_counterexample :
    ((session [mkBuffer "f" "a\nb\nc"] 0 80 24 ⟨false, false, false⟩
        [.JumpBottom, .Resize 80 2, .Refresh]).map
        (fun p => (p.cursorY, p.viewOffset, p.screenHeight)) = some (2, 0, 2) ∧
      ¬ ((2 : Int) - 0 ≤ 2 - 1)) ∧
    ((session [mkBuffer "f" "a\nb\nc"] 0 80 0 ⟨false, false, false⟩ [.Refresh]).map
        (fun p => (p.cursorY, p.viewOffset, p.screenHeight)) = some (0, 0, 0) ∧
      ¬ ((0 : Int) - 0 ≤ 0 - 1)) := by
  decide

/-- C5 (amended): call the cursor row visible when the grid has at least one
row and `cursorY - viewOffset ≤ screenHeight - 1` (`Vis`).  From a non-empty
buffer list and a non-negative requested offset every command sequence reaches
a state `p`, and in that state every command returns and:
every command other than `Resize` keeps the cursor row visible if it was;
`JumpTop` and `JumpBottom` make it visible on any grid with a row, and so do
`NextBuffer` and `PrevBuffer` when they change the buffer;
a `Resize` to height `h1` leaves it visible exactly when `1 ≤ h1` and
`cursorY - viewOffset ≤ h1 - 1`.
The initial state on a grid with a row has the cursor row visible, so `p` has
it visible whenever every `Resize` executed on the way met that condition. -/
theorem cursor_row_visible (buffers : List ContentBuffer) (hne : buffers ≠ [])
    (offset : Int) (h0 : 0 ≤ offset) (w h : Int) (fl : Flags) (cmds : List Command) :
    ∃ p, session buffers offset w h fl cmds = some p ∧
      (1 ≤ h → sessionResizesFit buffers offset w h fl cmds = true →
        1 ≤ p.screenHeight ∧ p.cursorY - p.viewOffset ≤ p.screenHeight - 1) ∧
      ∀ c, ∃ out, step (clampOffset buffers offset) p c = some out ∧
        ((∀ w1 h1, c ≠ .Resize w1 h1) → Vis p → Vis out.pager) ∧
        (c = .JumpTop ∨ c = .JumpBottom → 1 ≤ p.screenHeight → Vis out.pager) ∧
        (c = .NextBuffer ∨ c = .PrevBuffer →
          out.pager.currentFileIndex ≠ p.currentFileIndex → 1 ≤ p.screenHeight →
          Vis out.pager) ∧
        (∀ w1 h1, c = .Resize w1 h1 →
          (Vis out.pager ↔ 1 ≤ h1 ∧ p.cursorY - p.viewOffset ≤ h1 - 1)) := by
  obtain ⟨p, hs, hinvp, _⟩ := session_inv buffers hne offset h0 w h fl cmds
  obtain ⟨b, f, hb, hm, hinv⟩ := main_inv buffers hne offset h0 w h fl
  refine ⟨p, hs, ?_, ?_⟩
  · intro hh hfit
    have hs1 := hs
    simp only [session, hm] at hs1
    simp only [sessionResizesFit, hm] at hfit
    have hvis : Vis { newPager buffers (clampOffset buffers offset) w h fl with
        cursorX := flooredX (newPager buffers (clampOffset buffers offset) w h fl) b } := by
      simp only [Vis, newPager]
      omega
    exact eventLoop_fit cmds hinv hvis hfit hs1
  · intro c
    obtain ⟨out, hout, _, _⟩ := step_inv hinvp c
    have hy : 0 ≤ p.cursorY := by
      obtain ⟨⟨b1, _, hy0, _⟩, _⟩ := hinvp
      exact hy0
    refine ⟨out, hout, ?_, ?_, ?_, ?_⟩
    · intro hc hvis
      exact step_vis hy hvis (fun w1 h1 hr => absurd hr (hc w1 h1)) hout
    · intro hc hH
      exact step_vis_jump hc hH hout
    · intro hc hidx hH
      exact step_vis_switch hc hidx hH hout
    · intro w1 h1 hc
      subst hc
      exact step_vis_resize hout

theorem cursor_row_visible_witness :
    [mkBuffer "f" "a\nb\nc"] ≠ [] ∧ (0 : Int) ≤ 0 ∧
    (1 : Int) ≤ 24 ∧
    sessionResizesFit [mkBuffer "f" "a\nb\nc"] 0 80 24 ⟨false, false, false⟩
      [.JumpBottom, .Resize 80 3, .CursorUp, .Resize 80 2, .PageUp] = true ∧
    ∃ p, session [mkBuffer "f" "a\nb\nc"] 0 80 24 ⟨false, false, false⟩
        [.JumpBottom, .Resize 80 3, .CursorUp, .Resize 80 2, .PageUp] = some p ∧
      1 ≤ p.screenHeight ∧ p.cursorY - p.viewOffset ≤ p.screenHeight - 1 :=
  ⟨by simp, by decide, by decide, by decide,
    (cursor_row_visible [mkBuffer "f" "a\nb\nc"] (by simp) 0 (by decide) 80 24
      ⟨false, false, false⟩
      [.JumpBottom, .Resize 80 3, .CursorUp, .Resize 80 2, .PageUp]).imp
      (fun _ hp => ⟨hp.1, hp.2.1 (by decide) (by decide)⟩)⟩

/-! ## States left by a redraw -/

theorem flooredX_eq_max (p : Pager) (b : ContentBuffer) :
    flooredX p b =
      if p.showNumbers || p.relativeNumbers then max p.cursorX ((lineNumberWidth b : Int) + 1)
      else p.cursorX := by
  unfold flooredX
  by_cases hf : (p.showNumbers || p.relativeNumbers) = true
  · by_cases hx : p.cursorX < (lineNumberWidth b : Int) + 1
    · simp only [hf, hx, and_self, if_true]
      exact (max_eq_right (le_of_lt hx)).symm
    · simp only [hf, hx, and_false, if_false, if_true]
      exact (max_eq_left (not_lt.mp hx)).symm
  · simp only [hf, false_and, if_false]
    rfl

theorem flooredX_idem (q : Pager) (b : ContentBuffer) :
    flooredX { q with cursorX := flooredX q b } b = flooredX q b := by
  simp only [flooredX_eq_max]
  split
  · exact max_eq_left (le_max_right _ _)
  · rfl

theorem drawContent_drawn {q p1 : Pager} {f : Frame}
    (hd : drawContent q = some (p1, f)) : Drawn p1 := by
  obtain ⟨b, hb, hp⟩ := drawContent_pager hd
  intro b1 hb1
  rw [hp] at hb1 ⊢
  simp only at hb1
  rw [hb] at hb1
  cases hb1
  exact flooredX_idem q b

theorem step_drawn {init : Int} {p : Pager} {c : Command} {out : Outcome}
    (hp : Drawn p) (hs : step init p c = some out) : Drawn out.pager := by
  rcases step_shape hs with h | ⟨q, f, hd, _, _⟩
  · rw [h]; exact hp
  · exact drawContent_drawn hd

theorem eventLoop_drawn {init : Int} (cmds : List Command) :
    ∀ {p p1 : Pager}, Drawn p → eventLoop init p cmds = some p1 → Drawn p1 := by
  induction cmds with
  | nil =>
    intro p p1 hp h
    simp only [eventLoop, Option.some.injEq] at h
    rw [← h]; exact hp
  | cons c cs ih =>
    intro p p1 hp h
    unfold eventLoop at h
    split at h
    · exact absurd h (by simp)
    · rename_i out hs
      have h1 := step_drawn hp hs
      by_cases hq : out.quit = true
      · simp only [hq, if_true, Option.some.injEq] at h
        rw [← h]; exact h1
      · simp only [hq, if_false] at h
        exact ih h1 h

theorem session_drawn {buffers : List ContentBuffer} {offset w h : Int}
    {fl : Flags} {cmds : List Command} {p : Pager}
    (hs : session buffers offset w h fl cmds = some p) : Drawn p := by
  unfold session at hs
  split at hs
  · exact absurd hs (by simp)
  · rename_i init p0 f hm
    unfold main at hm
    split at hm
    · exact absurd hm (by simp)
    · simp only at hm
      split at hm
      · exact absurd hm (by simp)
      · rename_i p1 f1 hd
        simp only [Option.some.injEq, Prod.mk.injEq] at hm
        refine eventLoop_drawn cmds ?_ hs
        rw [← hm.2.1]
        exact drawContent_drawn hd

/-- C6: in every state the event loop can be in, under any display flags,
`Refresh` redraws and leaves the whole pager as it was: `cursorY`, `cursorX`,
`viewOffset`, `currentFileIndex`, `screenWidth`, `screenHeight`, the flags and
the buffers.  From a non-empty buffer list and a non-negative requested offset
every command sequence reaches such a state and `Refresh` returns there; and
for any requested offset, whenever `Refresh` returns in a session state, the
pager it returns is the pager it was given. -/
theorem refresh_unchanged (buffers : List ContentBuffer) (hne : buffers ≠ [])
    (offset : Int) (h0 : 0 ≤ offset) (w h : Int) (fl : Flags) (cmds : List Command)
    (init : Int) :
    (∃ q f, session buffers offset w h fl cmds = some q ∧
      step init q .Refresh = some ⟨q, some f, false⟩) ∧
    (∀ o q, session buffers o w h fl cmds = some q →
      ∀ out, step init q .Refresh = some out → out.pager = q ∧ out.quit = false) := by
  constructor
  · obtain ⟨q, hs, hinv, _⟩ := session_inv buffers hne offset h0 w h fl cmds
    obtain ⟨⟨b, hb, _, _⟩, hv, _⟩ := hinv
    obtain ⟨f, hf⟩ := drawContent_isSome hb hv
    have hx : flooredX q b = q.cursorX := session_drawn hs b hb
    refine ⟨q, f, hs, ?_⟩
    show redraw q = _
    unfold redraw
    rw [hf, hx]
  · intro o q hs out hout
    have hr : redraw q = some out := hout
    obtain ⟨b, hb, hp⟩ := redraw_pager hr
    have hx : flooredX q b = q.cursorX := session_drawn hs b hb
    rw [hx] at hp
    refine ⟨hp, ?_⟩
    unfold redraw at hr
    split at hr
    · exact absurd hr (by simp)
    · simp only [Option.some.injEq] at hr
      rw [← hr]

theorem refresh_unchanged_witness :
    [mkBuffer "f" "ab\nc"] ≠ [] ∧ (0 : Int) ≤ 0 ∧
    ∃ q f, session [mkBuffer "f" "ab\nc"] 0 80 24 ⟨true, false, false⟩
        [.CursorRight, .CursorDown, .CursorLeft] = some q ∧
      step 0 q .Refresh = some ⟨q, some f, false⟩ :=
  ⟨by simp, by decide,
    (refresh_unchanged [mkBuffer "f" "ab\nc"] (by simp) 0 (by decide) 80 24
      ⟨true, false, false⟩ [.CursorRight, .CursorDown, .CursorLeft] 0).1⟩

/-- C7 (counterexample): the renderer writes the navigation state.  With
`--numbers` on the buffer "a", `drawContent` called with `cursorX = 0` returns
with `cursorX = 2`. -/
theorem renderer_moves_column_counterexample :
    (newPager [mkBuffer "f" "a"] 0 80 24 ⟨true, false, false⟩).cursorX = 0 ∧
    (drawContent (newPager [mkBuffer "f" "a"] 0 80 24 ⟨true, false, false⟩)).map
        (fun r => r.1.cursorX) = some 2 := by
  decide

/-- C7 (amended): a call of the renderer that returns leaves the buffers and
every state field other than `cursorX` as they were; `cursorX` becomes
`max cursorX (lineNumberWidth + 1)` when a number flag is set and is unchanged
when both are off.  The call returns whenever the current buffer exists and
`viewOffset` is non-negative. -/
theorem renderer_frame (p : Pager) (b : ContentBuffer)
    (hb : index p.buffers p.currentFileIndex = some b) :
    (0 ≤ p.viewOffset → ∃ p1 f, drawContent p = some (p1, f)) ∧
    ∀ p1 f, drawContent p = some (p1, f) →
      p1.buffers = p.buffers ∧ p1.cursorY = p.cursorY ∧ p1.viewOffset = p.viewOffset ∧
      p1.screenWidth = p.screenWidth ∧ p1.screenHeight = p.screenHeight ∧
      p1.currentFileIndex = p.currentFileIndex ∧ p1.showNumbers = p.showNumbers ∧
      p1.relativeNumbers = p.relativeNumbers ∧ p1.quitAtEOF = p.quitAtEOF ∧
      p1.cursorX =
        (if p.showNumbers || p.relativeNumbers then
          max p.cursorX ((lineNumberWidth b : Int) + 1)
         else p.cursorX) ∧
      (p.showNumbers = false → p.relativeNumbers = false → p1 = p) := by
  refine ⟨fun hv => ?_, fun p1 f hd => ?_⟩
  · obtain ⟨f, hf⟩ := drawContent_isSome hb hv
    exact ⟨_, f, hf⟩
  · obtain ⟨b1, hb1, hp⟩ := drawContent_pager hd
    rw [hb] at hb1
    cases hb1
    subst hp
    refine ⟨rfl, rfl, rfl, rfl, rfl, rfl, rfl, rfl, rfl, flooredX_eq_max p b, ?_⟩
    intro h1 h2
    have hx : flooredX p b = p.cursorX := by
      rw [flooredX_eq_max, h1, h2]
      rfl
    rw [hx]

theorem renderer_frame_witness :
    index (newPager [mkBuffer "f" "a\nb"] 0 80 24 ⟨false, true, false⟩).buffers
        (newPager [mkBuffer "f" "a\nb"] 0 80 24 ⟨false, true, false⟩).currentFileIndex
      = some (mkBuffer "f" "a\nb") ∧
    ∃ p1 f, drawContent (newPager [mkBuffer "f" "a\nb"] 0 80 24 ⟨false, true, false⟩)
      = some (p1, f) :=
  ⟨by decide,
    (renderer_frame (newPager [mkBuffer "f" "a\nb"] 0 80 24 ⟨false, true, false⟩)
      (mkBuffer "f" "a\nb") (by decide)).1 (by decide)⟩

/-- C8 (the code at the failing inputs): with no flags on a 4x1 grid, the
buffer "\t\tc" makes `drawContent` write 'c' at `(2, 1)`, on row
`y = gridHeight`: the `break` of the tab loop leaves only that loop, and the
runes after the tab are still written.  On a 1x5 grid the buffer "ab" has 'b'
written at `(2, 1)`, in column `2 ≥ gridWidth`: a wrap resets the column to
`lineNumberWidth + 1` without comparing it with the width. -/
theorem write_outside_grid :
    (drawContent ⟨[mkBuffer "f" "\t\tc"], 0, 0, 0, 4, 1, 0, false, false, false⟩).map
        (fun r => r.2.cells) =
      some [⟨0, 0, ' '⟩, ⟨1, 0, ' '⟩, ⟨2, 0, ' '⟩, ⟨3, 0, ' '⟩, ⟨2, 1, 'c'⟩] ∧
    (drawContent ⟨[mkBuffer "f" "ab"], 0, 0, 0, 1, 5, 0, false, false, false⟩).map
        (fun r => r.2.cells) =
      some [⟨0, 0, 'a'⟩, ⟨2, 1, 'b'⟩] := by
  decide

/-! ## Soft wrap of a line without tabs -/

theorem succ_div_mod (t m : Nat) (hm : 0 < m) :
    (t % m + 1 < m → (t + 1) % m = t % m + 1 ∧ (t + 1) / m = t / m) ∧
    (t % m + 1 = m → (t + 1) % m = 0 ∧ (t + 1) / m = t / m + 1) := by
  have h1 := Nat.mod_add_div t m
  have h2 := Nat.mod_lt t hm
  constructor
  · intro h
    have := (Nat.div_mod_unique (a := t + 1) (c := t % m + 1) (d := t / m) hm).mpr
      ⟨by omega, h⟩
    exact ⟨this.2, this.1⟩
  · intro h
    have := (Nat.div_mod_unique (a := t + 1) (c := 0) (d := t / m + 1) hm).mpr
      ⟨by rw [Nat.mul_succ]; omega, hm⟩
    exact ⟨this.2, this.1⟩

theorem wrap_step (W P s : Nat) (y0 : Int) (hs : s ≤ W) (hP : P < W) (k : Nat) :
    ((penBefore W P s y0 k).1 ≥ (W : Int) →
      wrapPos W P s y0 k = ((P : Int), (penBefore W P s y0 k).2 + 1)) ∧
    (¬ (penBefore W P s y0 k).1 ≥ (W : Int) →
      wrapPos W P s y0 k = penBefore W P s y0 k) := by
  cases k with
  | zero =>
    simp only [penBefore, wrapPos]
    constructor
    · intro h
      have : ¬ (0 < W - s) := by omega
      simp [this]
    · intro h
      have : 0 < W - s := by omega
      simp [this]
  | succ j =>
    simp only [penBefore]
    by_cases h1 : j + 1 < W - s
    · have h2 : j < W - s := by omega
      simp only [wrapPos, h1, h2, if_true]
      constructor
      · intro h; exfalso; push_cast at h; omega
      · intro _; push_cast; rfl
    · by_cases h2 : j < W - s
      · have h3 : j + 1 - (W - s) = 0 := by omega
        simp only [wrapPos, h1, h2, if_true, if_false, h3, Nat.zero_mod, Nat.zero_div]
        constructor
        · intro _; simp
        · intro h; exfalso; push_cast at h; omega
      · have hm : 0 < W - P := by omega
        have h3 : j + 1 - (W - s) = (j - (W - s)) + 1 := by omega
        obtain ⟨ha, hb⟩ := succ_div_mod (j - (W - s)) (W - P) hm
        have hlt := Nat.mod_lt (j - (W - s)) hm
        simp only [wrapPos, h1, h2, if_false, h3]
        constructor
        · intro h
          have h4 : (j - (W - s)) % (W - P) + 1 = W - P := by push_cast at h; omega
          obtain ⟨hb1, hb2⟩ := hb h4
          rw [hb1, hb2]
          simp only [Prod.mk.injEq]
          constructor <;> omega
        · intro h
          have h4 : (j - (W - s)) % (W - P) + 1 < W - P := by push_cast at h; omega
          obtain ⟨ha1, ha2⟩ := ha h4
          rw [ha1, ha2]
          simp only [Prod.mk.injEq]
          constructor <;> first | omega | push_cast

theorem drawLine_noTab (W P s : Nat) (y0 H : Int) (hs : s ≤ W) (hP : P < W) :
    ∀ (rs : List Char) (k : Nat), (∀ c ∈ rs, c ≠ '\t') →
      (∀ i, k ≤ i → i < k + rs.length → (wrapPos W P s y0 i).2 < H) →
      drawLine W H P rs (penBefore W P s y0 k).1 (penBefore W P s y0 k).2 =
        ((rs.enumFrom k).map
            (fun ic => (⟨(wrapPos W P s y0 ic.1).1, (wrapPos W P s y0 ic.1).2, ic.2⟩ : Cell)),
          penBefore W P s y0 (k + rs.length)) := by
  intro rs
  induction rs with
  | nil => intro k _ _; rfl
  | cons r rs ih =>
    intro k hnt hrows
    have hr : r ≠ '\t' := hnt r (List.mem_cons_self _ _)
    have hk := hrows k (le_refl _) (by simp)
    have ih1 := ih (k + 1) (fun c hc => hnt c (List.mem_cons_of_mem _ hc))
      (fun i h1 h2 => hrows i (by omega) (by simp only [List.length_cons]; omega))
    have hnext : penBefore W P s y0 (k + 1) =
        ((wrapPos W P s y0 k).1 + 1, (wrapPos W P s y0 k).2) := rfl
    have hlen : k + (r :: rs).length = k + 1 + rs.length := by
      simp only [List.length_cons]; omega
    obtain ⟨hwrap, hstay⟩ := wrap_step W P s y0 hs hP k
    rw [hlen, List.enumFrom_cons, List.map_cons]
    unfold drawLine
    simp only [hr, if_false]
    by_cases hx : (penBefore W P s y0 k).1 ≥ (W : Int)
    · have hw := hwrap hx
      have hy : ¬ (penBefore W P s y0 k).2 + 1 ≥ H := by
        rw [hw] at hk
        simp only at hk
        omega
      rw [hw] at hnext
      simp only at hnext
      simp only [hx, hy, if_true, if_false]
      rw [hw]
      rw [hnext] at ih1
      simp only at ih1 ⊢
      rw [ih1]
    · have hw := hstay hx
      rw [hw] at hnext
      simp only [hx, if_false]
      rw [hw]
      rw [hnext] at ih1
      simp only at ih1 ⊢
      rw [ih1]

theorem splitAux_noNewline (cs : List Char) (h : ∀ c ∈ cs, c ≠ '\n') :
    ∀ cur, splitAux cur cs = [cur.reverse ++ cs] := by
  induction cs with
  | nil => intro cur; simp [splitAux]
  | cons c cs ih =>
    intro cur
    have hc : c ≠ '\n' := h c (List.mem_cons_self _ _)
    unfold splitAux
    simp only [hc, if_false]
    rw [ih (fun d hd => h d (List.mem_cons_of_mem _ hd))]
    simp

theorem splitLines_noNewline (cs : List Char) (h : ∀ c ∈ cs, c ≠ '\n') :
    splitLines cs = [cs] := by
  unfold splitLines
  rw [splitAux_noNewline cs h]
  rfl

/-- C9 (counterexample): soft wrap without a gutter does not restart at column
0.  For one line of 100 characters on a grid of width 10 (24 rows, no flags)
the renderer writes character 10 at `(2, 1)`, not `(0, 1)`, and character 99
at `(3, 12)`, not `(9, 9)`: the line takes 13 rows, not 10. -/
theorem soft_wrap_counterexample :
    (drawContent ⟨[⟨"f", List.replicate 100 'x'⟩], 0, 0, 0, 10, 24, 0, false, false, false⟩).map
        (fun r => (r.2.cells.length, r.2.cells[10]?, r.2.cells[99]?)) =
      some (100, some ⟨2, 1, 'x'⟩, some ⟨3, 12, 'x'⟩) := by
  decide

/-- C9 (amended): for a buffer of one line of `n` characters, none a tab, with
both number flags off, `viewOffset = 0` and a grid of width `W ≥ 3` whose
height covers every row used, the renderer writes character `i` at `(i, 0)`
when `i < W` and at `(2 + (i - W) mod (W - 2), 1 + (i - W) div (W - 2))`
otherwise: wrapped rows start at column `lineNumberWidth + 1 = 2`.  For
`n = 100`, `W = 10` character 10 is at `(2, 1)` and character 99 at `(3, 12)`:
row 0 holds 10 characters, rows 1 to 11 hold 8 each, row 12 holds 2. -/
theorem soft_wrap_positions (p : Pager) (b : ContentBuffer) (W : Nat)
    (hb : index p.buffers p.currentFileIndex = some b)
    (hch : ∀ c ∈ b.Content, c ≠ '\n' ∧ c ≠ '\t')
    (hsn : p.showNumbers = false) (hrn : p.relativeNumbers = false)
    (hvo : p.viewOffset = 0) (hw : p.screenWidth = (W : Int)) (hW : 3 ≤ W)
    (hrows : ∀ i, i < b.Content.length → (wrapPos W 2 0 0 i).2 < p.screenHeight) :
    (∃ f, drawContent p = some (p, f) ∧
      f.cells = (b.Content.enumFrom 0).map
        (fun ic => (⟨(wrapPos W 2 0 0 ic.1).1, (wrapPos W 2 0 0 ic.1).2, ic.2⟩ : Cell))) ∧
    (∀ i, wrapPos W 2 0 0 i =
      if i < W then ((i : Int), 0)
      else (((2 + (i - W) % (W - 2) : Nat) : Int), 0 + 1 + (((i - W) / (W - 2) : Nat) : Int))) ∧
    wrapPos 10 2 0 0 10 = (2, 1) ∧ wrapPos 10 2 0 0 99 = (3, 12) := by
  refine ⟨?_, ?_, by decide, by decide⟩
  · have hsplit : splitLines b.Content = [b.Content] :=
      splitLines_noNewline _ (fun c hc => (hch c hc).1)
    have hline := drawLine_noTab W 2 0 0 p.screenHeight (Nat.zero_le _) (by omega)
      b.Content 0 (fun c hc => (hch c hc).2) (fun i _ hi => hrows i (by omega))
    have hpen : penBefore W 2 0 0 0 = (0, 0) := rfl
    rw [hpen] at hline
    simp only at hline
    have hlnw : (sprintD ((1 : Nat) : Int)).length = 1 := by decide
    have hk : (((1 : Nat) : Int) - 0).toNat = 1 := by decide
    have hcells : drawLines p [b.Content] 1 1 0 0 =
        some ((b.Content.enumFrom 0).map
          (fun ic => (⟨(wrapPos W 2 0 0 ic.1).1, (wrapPos W 2 0 0 ic.1).2, ic.2⟩ : Cell))) := by
      unfold drawLines
      by_cases hH : (0 : Int) ≥ p.screenHeight
      · have hnil : b.Content = [] := by
          cases hc : b.Content with
          | nil => rfl
          | cons c cs =>
            exfalso
            have h0 := hrows 0 (by rw [hc]; simp)
            have hpos : (wrapPos W 2 0 0 0).2 = 0 := by
              have : 0 < W := by omega
              simp [wrapPos, this]
            omega
        simp only [hH, if_true, hnil]
        rfl
      · have hidx : index [b.Content] 0 = some b.Content := by simp [index]
        have hcast : (((1 : Nat) : Int) + 1) = ((2 : Nat) : Int) := by decide
        simp only [hH, if_false, hidx, drawRow, hsn, hrn, Bool.false_eq_true, if_false,
          Bool.not_false, Bool.and_true, hw, hcast, hline, drawLines, List.nil_append,
          List.append_nil]
    unfold drawContent
    simp only [hb, hsplit, hsn, hrn, hvo, List.length_singleton, hlnw, hk, hcells,
      Bool.or_self, Bool.false_eq_true, false_and, if_false]
    exact ⟨_, rfl, rfl⟩
  · intro i
    simp only [wrapPos, Nat.sub_zero, Nat.zero_add]

theorem soft_wrap_positions_witness :
    index [(⟨"f", List.replicate 100 'x'⟩ : ContentBuffer)] 0
      = some ⟨"f", List.replicate 100 'x'⟩ ∧
    (∀ c ∈ List.replicate 100 'x', c ≠ '\n' ∧ c ≠ '\t') ∧
    (3 ≤ 10) ∧
    (∀ i, i < (List.replicate 100 'x').length → (wrapPos 10 2 0 0 i).2 < (24 : Int)) ∧
    ∃ f, drawContent ⟨[⟨"f", List.replicate 100 'x'⟩], 0, 0, 0, 10, 24, 0, false, false, false⟩
        = some (⟨[⟨"f", List.replicate 100 'x'⟩], 0, 0, 0, 10, 24, 0, false, false, false⟩, f) ∧
      f.cells = ((List.replicate 100 'x').enumFrom 0).map
        (fun ic => (⟨(wrapPos 10 2 0 0 ic.1).1, (wrapPos 10 2 0 0 ic.1).2, ic.2⟩ : Cell)) :=
  ⟨by decide, by decide, by decide, by decide,
    (soft_wrap_positions
      ⟨[⟨"f", List.replicate 100 'x'⟩], 0, 0, 0, 10, 24, 0, false, false, false⟩
      ⟨"f", List.replicate 100 'x'⟩ 10 (by decide) (by decide) rfl rfl rfl rfl (by decide)
      (by decide)).1⟩

/-! ## Tabs -/

theorem drawRow_absolute (p : Pager) (rn : Bool) (w : Nat) (line : List Char)
    (lineNum y : Int) :
    drawRow { p with showNumbers := true, relativeNumbers := rn } w line lineNum y =
      drawRow { p with showNumbers := true, relativeNumbers := false } w line lineNum y := by
  simp [drawRow]

theorem drawLines_absolute (p : Pager) (rn : Bool) (lines : List (List Char)) (w : Nat) :
    ∀ (k : Nat) (lineNum y : Int),
      drawLines { p with showNumbers := true, relativeNumbers := rn } lines w k lineNum y =
        drawLines { p with showNumbers := true, relativeNumbers := false } lines w k lineNum y := by
  intro k
  induction k with
  | zero => intro lineNum y; rfl
  | succ k ih =>
    intro lineNum y
    unfold drawLines
    simp only [drawRow_absolute p rn, ih]

/-- C11: for every pager state, buffer list and grid, the frame (cell writes
and cursor decision) that `drawContent` produces with `showNumbers` and
`relativeNumbers` both set is the frame it produces with `showNumbers` set and
`relativeNumbers` unset; in particular the cell writes are identical, and the
call panics in the one case exactly when it panics in the other. -/
theorem gutter_exclusive (p : Pager) :
    (drawContent { p with showNumbers := true, relativeNumbers := true }).map (fun r => r.2) =
      (drawContent { p with showNumbers := true, relativeNumbers := false }).map (fun r => r.2) ∧
    (drawContent { p with showNumbers := true, relativeNumbers := true }).map
        (fun r => r.2.cells) =
      (drawContent { p with showNumbers := true, relativeNumbers := false }).map
        (fun r => r.2.cells) := by
  have h : (drawContent { p with showNumbers := true, relativeNumbers := true }).map
      (fun r => r.2) =
      (drawContent { p with showNumbers := true, relativeNumbers := false }).map
        (fun r => r.2) := by
    unfold drawContent
    simp only
    cases index p.buffers p.currentFileIndex with
    | none => rfl
    | some b =>
      simp only [drawLines_absolute p true]
      cases drawLines { p with showNumbers := true, relativeNumbers := false }
        (splitLines b.Content) (sprintD ((splitLines b.Content).length : Int)).length
        (((splitLines b.Content).length : Int) - p.viewOffset).toNat p.viewOffset 0 with
      | none => rfl
      | some cells =>
        simp only [Option.map_some', Bool.true_or, true_and]
        split_ifs <;> rfl
  refine ⟨h, ?_⟩
  have h2 := congrArg (Option.map Frame.cells) h
  simpa [Option.map_map] using h2

/-! ## Single commands -/

theorem currentLines_eq {p : Pager} {b : ContentBuffer}
    (hb : index p.buffers p.currentFileIndex = some b) :
    currentLines p = some (splitLines b.Content) := by
  unfold currentLines
  rw [hb]

theorem step_down_moved (init : Int) {p : Pager} {b : ContentBuffer}
    (hb : index p.buffers p.currentFileIndex = some b)
    (hy0 : 0 ≤ p.cursorY) (hv : 0 ≤ p.viewOffset)
    (hy1 : p.cursorY < ((splitLines b.Content).length : Int) - 1) :
    ∃ line f, index (splitLines b.Content) (p.cursorY + 1) = some line ∧
      step init p .CursorDown =
        some ⟨{ downMoved p line with cursorX := flooredX (downMoved p line) b }, some f,
          p.quitAtEOF && decide (p.cursorY + 1 = ((splitLines b.Content).length : Int) - 1)⟩ := by
  obtain ⟨line, hline⟩ := index_isSome (splitLines b.Content) (p.cursorY + 1)
    (by omega) (by omega)
  have hv1 : 0 ≤ (downMoved p line).viewOffset := by
    simp only [downMoved]
    split <;> omega
  obtain ⟨f, hf⟩ := drawContent_isSome (p := downMoved p line) (b := b) hb hv1
  refine ⟨line, f, hline, ?_⟩
  rw [step_down_eq init (currentLines_eq hb) hy1 hline, hf]
  rfl

/-- C12: in a state whose current buffer exists, with non-negative `cursorY`
and `viewOffset`, `CursorDown` from a row that is not the last line returns a state with `cursorY` increased by exactly 1,
whatever the grid size, the flags and `cursorX` are; and `CursorDown` on the
last line leaves the whole pager as it was, without a redraw. -/
theorem cursorDown_row (init : Int) (p : Pager) (b : ContentBuffer)
    (hb : index p.buffers p.currentFileIndex = some b)
    (hy0 : 0 ≤ p.cursorY) (hv : 0 ≤ p.viewOffset) :
    (p.cursorY < ((splitLines b.Content).length : Int) - 1 →
      ∃ out, step init p .CursorDown = some out ∧ out.pager.cursorY = p.cursorY + 1) ∧
    (p.cursorY = ((splitLines b.Content).length : Int) - 1 →
      step init p .CursorDown = some ⟨p, none, false⟩) := by
  constructor
  · intro h
    obtain ⟨line, f, _, hs⟩ := step_down_moved init hb hy0 hv h
    exact ⟨_, hs, rfl⟩
  · intro h
    have hc : ¬ p.cursorY < ((splitLines b.Content).length : Int) - 1 := by omega
    simp [step, currentLines_eq hb, hc]

theorem cursorDown_row_witness :
    index (newPager [mkBuffer "f" "a\nbb\nccc"] 1 80 24 ⟨false, false, false⟩).buffers
        (newPager [mkBuffer "f" "a\nbb\nccc"] 1 80 24 ⟨false, false, false⟩).currentFileIndex
      = some (mkBuffer "f" "a\nbb\nccc") ∧
    0 ≤ (newPager [mkBuffer "f" "a\nbb\nccc"] 1 80 24 ⟨false, false, false⟩).cursorY ∧
    0 ≤ (newPager [mkBuffer "f" "a\nbb\nccc"] 1 80 24 ⟨false, false, false⟩).viewOffset ∧
    (newPager [mkBuffer "f" "a\nbb\nccc"] 1 80 24 ⟨false, false, false⟩).cursorY
      < ((splitLines (mkBuffer "f" "a\nbb\nccc").Content).length : Int) - 1 ∧
    ∃ out, step 1 (newPager [mkBuffer "f" "a\nbb\nccc"] 1 80 24 ⟨false, false, false⟩)
        .CursorDown = some out ∧
      out.pager.cursorY =
        (newPager [mkBuffer "f" "a\nbb\nccc"] 1 80 24 ⟨false, false, false⟩).cursorY + 1 :=
  ⟨by decide, by decide, by decide, by decide,
    (cursorDown_row 1 (newPager [mkBuffer "f" "a\nbb\nccc"] 1 80 24 ⟨false, false, false⟩)
      (mkBuffer "f" "a\nbb\nccc") (by decide) (by decide) (by decide)).1
      (by decide)⟩

theorem redraw_isSome {q : Pager} {b : ContentBuffer}
    (hb : index q.buffers q.currentFileIndex = some b) (hv : 0 ≤ q.viewOffset) :
    ∃ f, redraw q = some ⟨{ q with cursorX := flooredX q b }, some f, false⟩ := by
  obtain ⟨f, hf⟩ := drawContent_isSome hb hv
  exact ⟨f, by unfold redraw; rw [hf]⟩

/-- C13: in any state whose current buffer exists, `JumpBottom` redraws and
returns a state with `cursorY = lineCount - 1` and
`viewOffset = max 0 (cursorY - screenHeight + 1)` for that new `cursorY`; for
the buffer "a\nbb\nccc" on an 80x24 grid with initial offset 0 the result is
`cursorY = 2`, `viewOffset = 0`. -/
theorem jumpBottom_position (init : Int) (p : Pager) (b : ContentBuffer)
    (hb : index p.buffers p.currentFileIndex = some b) :
    (∃ out, step init p .JumpBottom = some out ∧
      out.pager.cursorY = ((splitLines b.Content).length : Int) - 1 ∧
      out.pager.viewOffset = max 0 (out.pager.cursorY - p.screenHeight + 1) ∧
      out.pager.screenHeight = p.screenHeight ∧ out.frame.isSome = true) ∧
    (session [mkBuffer "f" "a\nbb\nccc"] 0 80 24 ⟨false, false, false⟩ [.JumpBottom]).map
        (fun q => (q.cursorY, q.viewOffset)) = some (2, 0) := by
  refine ⟨?_, by decide⟩
  have hcl := currentLines_eq hb
  have key : ∀ q : Pager, index q.buffers q.currentFileIndex = some b → 0 ≤ q.viewOffset →
      step init p .JumpBottom = redraw q →
      q.cursorY = ((splitLines b.Content).length : Int) - 1 →
      q.viewOffset = max 0 (q.cursorY - p.screenHeight + 1) →
      q.screenHeight = p.screenHeight →
      ∃ out, step init p .JumpBottom = some out ∧
        out.pager.cursorY = ((splitLines b.Content).length : Int) - 1 ∧
        out.pager.viewOffset = max 0 (out.pager.cursorY - p.screenHeight + 1) ∧
        out.pager.screenHeight = p.screenHeight ∧ out.frame.isSome = true := by
    intro q hq hv hstep h1 h2 h3
    obtain ⟨f, hf⟩ := redraw_isSome hq hv
    exact ⟨_, hstep.trans hf, h1, h2, h3, rfl⟩
  by_cases hc : ((splitLines b.Content).length : Int) - 1 - p.screenHeight + 1 < 0
  · refine key
      { p with cursorY := ((splitLines b.Content).length : Int) - 1, viewOffset := 0 }
      hb (le_refl _) (by simp [step, hcl, hc]) rfl ?_ rfl
    simp only
    rw [max_eq_left (by omega)]
  · refine key
      { p with cursorY := ((splitLines b.Content).length : Int) - 1,
               viewOffset := ((splitLines b.Content).length : Int) - 1 - p.screenHeight + 1 }
      hb (by simp only; omega) (by simp [step, hcl, hc]) rfl ?_ rfl
    simp only
    rw [max_eq_right (by omega)]

theorem jumpBottom_position_witness :
    index (newPager [mkBuffer "f" "a\nbb\nccc"] 0 80 2 ⟨false, false, false⟩).buffers
        (newPager [mkBuffer "f" "a\nbb\nccc"] 0 80 2 ⟨false, false, false⟩).currentFileIndex
      = some (mkBuffer "f" "a\nbb\nccc") ∧
    ∃ out, step 0 (newPager [mkBuffer "f" "a\nbb\nccc"] 0 80 2 ⟨false, false, false⟩)
        .JumpBottom = some out ∧
      out.pager.cursorY = ((splitLines (mkBuffer "f" "a\nbb\nccc").Content).length : Int) - 1 ∧
      out.pager.viewOffset = max 0 (out.pager.cursorY -
        (newPager [mkBuffer "f" "a\nbb\nccc"] 0 80 2 ⟨false, false, false⟩).screenHeight + 1) ∧
      out.pager.screenHeight =
        (newPager [mkBuffer "f" "a\nbb\nccc"] 0 80 2 ⟨false, false, false⟩).screenHeight ∧
      out.frame.isSome = true :=
  ⟨by decide,
    (jumpBottom_position 0 (newPager [mkBuffer "f" "a\nbb\nccc"] 0 80 2 ⟨false, false, false⟩)
      (mkBuffer "f" "a\nbb\nccc") (by decide)).1⟩

/-- C14: in a state with a valid current index and a non-negative startup
offset `init` (the value the clamp loop of `main` left), `NextBuffer` from a
buffer that is not the last redraws and yields `currentFileIndex + 1` with
`cursorY = init` and `viewOffset = init`, whatever they were before, and
`PrevBuffer` from a buffer that is not the first yields `currentFileIndex - 1`
in the same way.  `main` hands the event loop the clamped offset: with buffers
of 7 and 3 lines and requested offset 9 (clamped to 2), three `CursorDown`
reach row 5 of buffer 0, and `NextBuffer` then gives buffer 1 at row 2. -/
theorem buffer_switch_resets (init : Int) (p : Pager) (hi : 0 ≤ init)
    (h0 : 0 ≤ p.currentFileIndex) (h1 : p.currentFileIndex < (p.buffers.length : Int)) :
    (p.currentFileIndex < (p.buffers.length : Int) - 1 →
      ∃ out, step init p .NextBuffer = some out ∧
        out.pager.currentFileIndex = p.currentFileIndex + 1 ∧
        out.pager.cursorY = init ∧ out.pager.viewOffset = init ∧
        out.frame.isSome = true) ∧
    (0 < p.currentFileIndex →
      ∃ out, step init p .PrevBuffer = some out ∧
        out.pager.currentFileIndex = p.currentFileIndex - 1 ∧
        out.pager.cursorY = init ∧ out.pager.viewOffset = init ∧
        out.frame.isSome = true) ∧
    (∀ buffers offset w h fl i p0 f, main buffers offset w h fl = some (i, p0, f) →
      i = clampOffset buffers offset) ∧
    (session [mkBuffer "f" "0\n1\n2\n3\n4\n5\n6", mkBuffer "g" "a\nb\nc"] 9 80 24
        ⟨false, false, false⟩ [.CursorDown, .CursorDown, .CursorDown]).map
      (fun q => (q.currentFileIndex, q.cursorY)) = some (0, 5) ∧
    (session [mkBuffer "f" "0\n1\n2\n3\n4\n5\n6", mkBuffer "g" "a\nb\nc"] 9 80 24
        ⟨false, false, false⟩ [.CursorDown, .CursorDown, .CursorDown, .NextBuffer]).map
      (fun q => (q.currentFileIndex, q.cursorY, q.viewOffset)) = some (1, 2, 2) := by
  refine ⟨fun hc => ?_, fun hc => ?_, ?_, by decide, by decide⟩
  · obtain ⟨b2, hb2⟩ := index_isSome p.buffers (p.currentFileIndex + 1) (by omega) (by omega)
    have hstep : step init p .NextBuffer = redraw { p with
        currentFileIndex := p.currentFileIndex + 1
        cursorX := 0
        cursorY := init
        viewOffset := init } := by
      simp [step, hc]
    obtain ⟨f, hf⟩ := redraw_isSome (q := { p with
        currentFileIndex := p.currentFileIndex + 1
        cursorX := 0
        cursorY := init
        viewOffset := init }) hb2 hi
    exact ⟨_, hstep.trans hf, rfl, rfl, rfl, rfl⟩
  · obtain ⟨b2, hb2⟩ := index_isSome p.buffers (p.currentFileIndex - 1) (by omega) (by omega)
    have hstep : step init p .PrevBuffer = redraw { p with
        currentFileIndex := p.currentFileIndex - 1
        cursorX := 0
        cursorY := init
        viewOffset := init } := by
      simp [step, hc]
    obtain ⟨f, hf⟩ := redraw_isSome (q := { p with
        currentFileIndex := p.currentFileIndex - 1
        cursorX := 0
        cursorY := init
        viewOffset := init }) hb2 hi
    exact ⟨_, hstep.trans hf, rfl, rfl, rfl, rfl⟩
  · intro buffers offset w h fl i p0 f hm
    unfold main at hm
    split at hm
    · exact absurd hm (by simp)
    · simp only at hm
      split at hm
      · exact absurd hm (by simp)
      · simp only [Option.some.injEq, Prod.mk.injEq] at hm
        exact hm.1.symm

theorem buffer_switch_resets_witness :
    (0 : Int) ≤ 2 ∧
    0 ≤ (newPager [mkBuffer "f" "0\n1\n2\n3\n4\n5\n6", mkBuffer "g" "a\nb\nc"] 2 80 24
      ⟨false, false, false⟩).currentFileIndex ∧
    (newPager [mkBuffer "f" "0\n1\n2\n3\n4\n5\n6", mkBuffer "g" "a\nb\nc"] 2 80 24
      ⟨false, false, false⟩).currentFileIndex <
      (((newPager [mkBuffer "f" "0\n1\n2\n3\n4\n5\n6", mkBuffer "g" "a\nb\nc"] 2 80 24
        ⟨false, false, false⟩).buffers.length : Nat) : Int) ∧
    (newPager [mkBuffer "f" "0\n1\n2\n3\n4\n5\n6", mkBuffer "g" "a\nb\nc"] 2 80 24
      ⟨false, false, false⟩).currentFileIndex <
      (((newPager [mkBuffer "f" "0\n1\n2\n3\n4\n5\n6", mkBuffer "g" "a\nb\nc"] 2 80 24
        ⟨false, false, false⟩).buffers.length : Nat) : Int) - 1 ∧
    ∃ out, step 2 (newPager [mkBuffer "f" "0\n1\n2\n3\n4\n5\n6", mkBuffer "g" "a\nb\nc"] 2 80 24
        ⟨false, false, false⟩) .NextBuffer = some out ∧
      out.pager.currentFileIndex =
        (newPager [mkBuffer "f" "0\n1\n2\n3\n4\n5\n6", mkBuffer "g" "a\nb\nc"] 2 80 24
          ⟨false, false, false⟩).currentFileIndex + 1 ∧
      out.pager.cursorY = 2 ∧ out.pager.viewOffset = 2 ∧ out.frame.isSome = true :=
  ⟨by decide, by decide, by decide, by decide,
    (buffer_switch_resets 2
      (newPager [mkBuffer "f" "0\n1\n2\n3\n4\n5\n6", mkBuffer "g" "a\nb\nc"] 2 80 24
        ⟨false, false, false⟩) (by decide) (by decide) (by decide)).1 (by decide)⟩

/-- C15 (counterexample): with `quitAtEOF` set on the one-line buffer "a",
`CursorDown` from the initial state leaves the cursor on row 0, the last line,
and does not signal termination. -/
theorem cursorDown_quit_counterexample :
    (splitLines (mkBuffer "f" "a").Content).length = 1 ∧
    ((main [mkBuffer "f" "a"] 0 80 24 ⟨false, false, true⟩).bind
        (fun s => step s.1 s.2.1 .CursorDown)).map
        (fun out => (out.pager.quitAtEOF, out.pager.cursorY, out.quit))
      = some (true, 0, false) := by
  decide

/-- C15 (amended): in a state whose current buffer exists, with non-negative
`cursorY` and `viewOffset`, `CursorDown` signals termination if and only if
`quitAtEOF` is set and the command moves the cursor onto the last line, that
is from the row before it; when the cursor already is on the last line nothing
is signalled, and with `quitAtEOF` unset nothing is ever signalled. -/
theorem cursorDown_quit (init : Int) (p : Pager) (b : ContentBuffer)
    (hb : index p.buffers p.currentFileIndex = some b)
    (hy0 : 0 ≤ p.cursorY) (hv : 0 ≤ p.viewOffset) :
    ∃ out, step init p .CursorDown = some out ∧
      (out.quit = true ↔
        p.quitAtEOF = true ∧ p.cursorY + 1 = ((splitLines b.Content).length : Int) - 1) ∧
      (out.quit = true → out.pager.cursorY = ((splitLines b.Content).length : Int) - 1) ∧
      (p.cursorY = ((splitLines b.Content).length : Int) - 1 → out.quit = false) ∧
      (p.quitAtEOF = false → out.quit = false) := by
  by_cases h : p.cursorY < ((splitLines b.Content).length : Int) - 1
  · obtain ⟨line, f, _, hs⟩ := step_down_moved init hb hy0 hv h
    refine ⟨_, hs, ?_, ?_, ?_, ?_⟩
    · simp only [Bool.and_eq_true, decide_eq_true_eq]
    · simp only [Bool.and_eq_true, decide_eq_true_eq, downMoved]
      intro hq
      exact hq.2
    · intro hl
      exfalso
      omega
    · intro hq
      simp only [hq, Bool.false_and]
  · have hs : step init p .CursorDown = some ⟨p, none, false⟩ := by
      simp [step, currentLines_eq hb, h]
    refine ⟨_, hs, ?_, ?_, ?_, ?_⟩
    · simp only [Bool.false_eq_true, false_iff, not_and]
      intro _ hl
      omega
    · intro hq
      exact absurd hq (by simp)
    · intro _; rfl
    · intro _; rfl

theorem cursorDown_quit_witness :
    index (newPager [mkBuffer "f" "a\nb"] 0 80 24 ⟨false, false, true⟩).buffers
        (newPager [mkBuffer "f" "a\nb"] 0 80 24 ⟨false, false, true⟩).currentFileIndex
      = some (mkBuffer "f" "a\nb") ∧
    0 ≤ (newPager [mkBuffer "f" "a\nb"] 0 80 24 ⟨false, false, true⟩).cursorY ∧
    0 ≤ (newPager [mkBuffer "f" "a\nb"] 0 80 24 ⟨false, false, true⟩).viewOffset ∧
    ∃ out, step 0 (newPager [mkBuffer "f" "a\nb"] 0 80 24 ⟨false, false, true⟩) .CursorDown
        = some out ∧
      (out.quit = true ↔
        (newPager [mkBuffer "f" "a\nb"] 0 80 24 ⟨false, false, true⟩).quitAtEOF = true ∧
        (newPager [mkBuffer "f" "a\nb"] 0 80 24 ⟨false, false, true⟩).cursorY + 1 =
          ((splitLines (mkBuffer "f" "a\nb").Content).length : Int) - 1) ∧
      (out.quit = true →
        out.pager.cursorY = ((splitLines (mkBuffer "f" "a\nb").Content).length : Int) - 1) ∧
      ((newPager [mkBuffer "f" "a\nb"] 0 80 24 ⟨false, false, true⟩).cursorY =
          ((splitLines (mkBuffer "f" "a\nb").Content).length : Int) - 1 → out.quit = false) ∧
      ((newPager [mkBuffer "f" "a\nb"] 0 80 24 ⟨false, false, true⟩).quitAtEOF = false →
        out.quit = false) :=
  ⟨by decide, by decide, by decide,
    cursorDown_quit 0 (newPager [mkBuffer "f" "a\nb"] 0 80 24 ⟨false, false, true⟩)
      (mkBuffer "f" "a\nb") (by decide) (by decide) (by decide)⟩

/-! ## Degenerate grids and the cursor -/

theorem drawLines_zero_height (p : Pager) (lines : List (List Char)) (w : Nat)
    (hH : p.screenHeight = 0) (k : Nat) (lineNum : Int) :
    drawLines p lines w k lineNum 0 = some [] := by
  cases k with
  | zero => rfl
  | succ k =>
    unfold drawLines
    simp [hH]

theorem drawContent_cursor {p p1 : Pager} {f : Frame} {b : ContentBuffer}
    (hb : index p.buffers p.currentFileIndex = some b)
    (hd : drawContent p = some (p1, f)) :
    f.cursor =
      if 0 ≤ p.cursorY - p.viewOffset ∧ p.cursorY - p.viewOffset < p.screenHeight then
        some (flooredX p b, p.cursorY - p.viewOffset)
      else none := by
  unfold drawContent at hd
  simp only [hb] at hd
  split at hd
  · exact absurd hd (by simp)
  · simp only [Option.some.injEq, Prod.mk.injEq] at hd
    rw [← hd.2]
    simp only [ge_iff_le, flooredX, lineNumberWidth]
    split_ifs <;> rfl

/-- C16 (counterexample): on a grid of width 0 and height 2, rendering the
buffer "a" without flags writes the cell `(2, 1, 'a')` and shows the cursor at
`(0, 0)`. -/
theorem zero_width_counterexample :
    (drawContent ⟨[mkBuffer "f" "a"], 0, 0, 0, 0, 2, 0, false, false, false⟩).map
        (fun r => r.2) = some ⟨[⟨2, 1, 'a'⟩], some (0, 0)⟩ := by
  decide

/-- C16 (amended): rendering onto a grid of height 0 produces no cell writes
and a hidden cursor, for every existing current buffer, state, flag setting
and grid width.  The cursor decision never looks at the width: whatever the
width, also 0, the cursor is hidden exactly when `cursorY - viewOffset` is
outside `[0, screenHeight)`. -/
theorem zero_height_frame (p : Pager) (b : ContentBuffer)
    (hb : index p.buffers p.currentFileIndex = some b) :
    (p.screenHeight = 0 →
      ∃ p1, drawContent p = some (p1, ⟨[], none⟩)) ∧
    (∀ p1 f, drawContent p = some (p1, f) →
      (f.cursor = none ↔
        ¬ (0 ≤ p.cursorY - p.viewOffset ∧ p.cursorY - p.viewOffset < p.screenHeight))) := by
  constructor
  · intro hH
    have hcur : ¬ (p.cursorY - p.viewOffset ≥ 0 ∧ p.cursorY - p.viewOffset < p.screenHeight) := by
      rw [hH]
      omega
    unfold drawContent
    simp only [hb, drawLines_zero_height p _ _ hH, hcur, if_false]
    exact ⟨_, rfl⟩
  · intro p1 f hd
    rw [drawContent_cursor hb hd]
    split
    · rename_i h
      exact ⟨fun hn => absurd hn (by simp), fun hn => absurd h hn⟩
    · rename_i h
      exact ⟨fun _ => h, fun _ => rfl⟩

theorem zero_height_frame_witness :
    index (newPager [mkBuffer "f" "a\nb"] 0 80 0 ⟨true, false, false⟩).buffers
        (newPager [mkBuffer "f" "a\nb"] 0 80 0 ⟨true, false, false⟩).currentFileIndex
      = some (mkBuffer "f" "a\nb") ∧
    (newPager [mkBuffer "f" "a\nb"] 0 80 0 ⟨true, false, false⟩).screenHeight = 0 ∧
    ∃ p1, drawContent (newPager [mkBuffer "f" "a\nb"] 0 80 0 ⟨true, false, false⟩)
      = some (p1, ⟨[], none⟩) :=
  ⟨by decide, by decide,
    (zero_height_frame (newPager [mkBuffer "f" "a\nb"] 0 80 0 ⟨true, false, false⟩)
      (mkBuffer "f" "a\nb") (by decide)).1 (by decide)⟩

/-- C17: for a state whose current buffer `b` exists, a call of the renderer
that returns (it does whenever `viewOffset ≥ 0`) reports the cursor visible if
and only if `0 ≤ cursorY - viewOffset < screenHeight`, and hidden otherwise;
when visible, its screen row is `cursorY - viewOffset` and its screen column
is `cursorX`, or `max cursorX (lineNumberWidth + 1)` when a number flag is
set, so that with a gutter the column is never in `0 .. lineNumberWidth`. -/
theorem cursor_placement (p : Pager) (b : ContentBuffer)
    (hb : index p.buffers p.currentFileIndex = some b) :
    (0 ≤ p.viewOffset → ∃ p1 f, drawContent p = some (p1, f)) ∧
    ∀ p1 f, drawContent p = some (p1, f) →
      (f.cursor.isSome = true ↔
        0 ≤ p.cursorY - p.viewOffset ∧ p.cursorY - p.viewOffset < p.screenHeight) ∧
      (f.cursor = none ↔
        ¬ (0 ≤ p.cursorY - p.viewOffset ∧ p.cursorY - p.viewOffset < p.screenHeight)) ∧
      ∀ x y, f.cursor = some (x, y) →
        y = p.cursorY - p.viewOffset ∧
        x = (if p.showNumbers || p.relativeNumbers then
              max p.cursorX ((lineNumberWidth b : Int) + 1)
             else p.cursorX) ∧
        ((p.showNumbers || p.relativeNumbers) = true → (lineNumberWidth b : Int) + 1 ≤ x) := by
  refine ⟨fun hv => ?_, fun p1 f hd => ?_⟩
  · obtain ⟨f, hf⟩ := drawContent_isSome hb hv
    exact ⟨_, f, hf⟩
  · have hc := drawContent_cursor hb hd
    by_cases h : 0 ≤ p.cursorY - p.viewOffset ∧ p.cursorY - p.viewOffset < p.screenHeight
    · rw [if_pos h] at hc
      refine ⟨?_, ?_, ?_⟩
      · rw [hc]
        exact ⟨fun _ => h, fun _ => rfl⟩
      · rw [hc]
        exact ⟨fun hn => absurd hn (by simp), fun hn => absurd h hn⟩
      · intro x y hxy
        rw [hc] at hxy
        simp only [Option.some.injEq, Prod.mk.injEq] at hxy
        obtain ⟨hx, hy⟩ := hxy
        refine ⟨hy.symm, ?_, ?_⟩
        · rw [← hx, flooredX_eq_max]
        · intro hg
          rw [← hx, flooredX_eq_max, if_pos hg]
          exact le_max_right _ _
    · rw [if_neg h] at hc
      refine ⟨?_, ?_, ?_⟩
      · rw [hc]
        exact ⟨fun hn => absurd hn (by simp), fun hn => absurd hn h⟩
      · rw [hc]
        exact ⟨fun _ => h, fun _ => rfl⟩
      · intro x y hxy
        rw [hc] at hxy
        exact absurd hxy (by simp)

theorem cursor_placement_witness :
    index (newPager [mkBuffer "f" "a\nb"] 1 80 24 ⟨false, true, false⟩).buffers
        (newPager [mkBuffer "f" "a\nb"] 1 80 24 ⟨false, true, false⟩).currentFileIndex
      = some (mkBuffer "f" "a\nb") ∧
    (0 ≤ (newPager [mkBuffer "f" "a\nb"] 1 80 24 ⟨false, true, false⟩).viewOffset →
      ∃ p1 f, drawContent (newPager [mkBuffer "f" "a\nb"] 1 80 24 ⟨false, true, false⟩)
        = some (p1, f)) :=
  ⟨by decide,
    (cursor_placement (newPager [mkBuffer "f" "a\nb"] 1 80 24 ⟨false, true, false⟩)
      (mkBuffer "f" "a\nb") (by decide)).1⟩

theorem horizontal_partial {init : Int} {q : Pager} {c : Command} {out : Outcome}
    (hc : c = .CursorLeft ∨ c = .CursorRight) (hs : step init q c = some out) :
    out.pager.viewOffset = q.viewOffset ∧ out.pager.cursorY = q.cursorY ∧
      out.pager.currentFileIndex = q.currentFileIndex ∧
      out.pager.screenWidth = q.screenWidth ∧ out.pager.screenHeight = q.screenHeight ∧
      setup out.pager = setup q := by
  rcases hc with rfl | rfl <;> simp only [step] at hs <;> (repeat' split at hs) <;>
    first
    | (cases hs; done)
    | (simp only [Option.some.injEq] at hs; rw [← hs]; exact ⟨rfl, rfl, rfl, rfl, rfl, rfl⟩)
    | (refine Exists.elim (redraw_pager hs) ?_
       intro b hq
       rw [hq.2]
       exact ⟨rfl, rfl, rfl, rfl, rfl, rfl⟩)

/-- C18: `CursorLeft` and `CursorRight` return a state with the same
`viewOffset`, `cursorY`, `currentFileIndex`, `screenWidth` and `screenHeight`
(and the same buffers and flags) whenever they return; and they do return in
every state whose current buffer exists, with the cursor on one of its lines
and a non-negative `viewOffset`. -/
theorem horizontal_frame (init : Int) (p : Pager) (b : ContentBuffer) (line : List Char)
    (hb : index p.buffers p.currentFileIndex = some b)
    (hline : index (splitLines b.Content) p.cursorY = some line)
    (hv : 0 ≤ p.viewOffset) (c : Command) (hc : c = .CursorLeft ∨ c = .CursorRight) :
    ∃ out, step init p c = some out ∧
      out.pager.viewOffset = p.viewOffset ∧ out.pager.cursorY = p.cursorY ∧
      out.pager.currentFileIndex = p.currentFileIndex ∧
      out.pager.screenWidth = p.screenWidth ∧ out.pager.screenHeight = p.screenHeight ∧
      setup out.pager = setup p ∧
      ∀ q out1, step init q c = some out1 →
        out1.pager.viewOffset = q.viewOffset ∧ out1.pager.cursorY = q.cursorY ∧
        out1.pager.currentFileIndex = q.currentFileIndex ∧
        out1.pager.screenWidth = q.screenWidth ∧ out1.pager.screenHeight = q.screenHeight ∧
        setup out1.pager = setup q := by
  have hpart : ∀ q out1, step init q c = some out1 →
      out1.pager.viewOffset = q.viewOffset ∧ out1.pager.cursorY = q.cursorY ∧
      out1.pager.currentFileIndex = q.currentFileIndex ∧
      out1.pager.screenWidth = q.screenWidth ∧ out1.pager.screenHeight = q.screenHeight ∧
      setup out1.pager = setup q := fun q out1 hs => horizontal_partial hc hs
  have hex : ∃ out, step init p c = some out := by
    rcases hc with rfl | rfl
    · by_cases hx : p.cursorX > 0
      · obtain ⟨f, hf⟩ := redraw_isSome (q := { p with cursorX := p.cursorX - 1 }) hb hv
        exact ⟨_, (show step init p .CursorLeft = redraw { p with cursorX := p.cursorX - 1 } by
          simp [step, hx]).trans hf⟩
      · exact ⟨⟨p, none, false⟩, by simp [step, hx]⟩
    · by_cases hx : p.cursorX < (line.length : Int)
      · obtain ⟨f, hf⟩ := redraw_isSome (q := { p with cursorX := p.cursorX + 1 }) hb hv
        exact ⟨_, (show step init p .CursorRight = redraw { p with cursorX := p.cursorX + 1 } by
          simp [step, currentLines_eq hb, hline, hx]).trans hf⟩
      · exact ⟨⟨p, none, false⟩, by simp [step, currentLines_eq hb, hline, hx]⟩
  obtain ⟨out, hs⟩ := hex
  obtain ⟨h1, h2, h3, h4, h5, h6⟩ := hpart p out hs
  exact ⟨out, hs, h1, h2, h3, h4, h5, h6, hpart⟩

theorem horizontal_frame_witness :
    index (newPager [mkBuffer "f" "ab\nc"] 0 80 24 ⟨false, false, false⟩).buffers
        (newPager [mkBuffer "f" "ab\nc"] 0 80 24 ⟨false, false, false⟩).currentFileIndex
      = some (mkBuffer "f" "ab\nc") ∧
    index (splitLines (mkBuffer "f" "ab\nc").Content)
        (newPager [mkBuffer "f" "ab\nc"] 0 80 24 ⟨false, false, false⟩).cursorY
      = some ['a', 'b'] ∧
    0 ≤ (newPager [mkBuffer "f" "ab\nc"] 0 80 24 ⟨false, false, false⟩).viewOffset ∧
    (Command.CursorRight = .CursorLeft ∨ Command.CursorRight = .CursorRight) ∧
    ∃ out, step 0 (newPager [mkBuffer "f" "ab\nc"] 0 80 24 ⟨false, false, false⟩)
        .CursorRight = some out ∧
      out.pager.viewOffset =
        (newPager [mkBuffer "f" "ab\nc"] 0 80 24 ⟨false, false, false⟩).viewOffset ∧
      out.pager.cursorY =
        (newPager [mkBuffer "f" "ab\nc"] 0 80 24 ⟨false, false, false⟩).cursorY ∧
      out.pager.currentFileIndex =
        (newPager [mkBuffer "f" "ab\nc"] 0 80 24 ⟨false, false, false⟩).currentFileIndex ∧
      out.pager.screenWidth =
        (newPager [mkBuffer "f" "ab\nc"] 0 80 24 ⟨false, false, false⟩).screenWidth ∧
      out.pager.screenHeight =
        (newPager [mkBuffer "f" "ab\nc"] 0 80 24 ⟨false, false, false⟩).screenHeight ∧
      setup out.pager = setup (newPager [mkBuffer "f" "ab\nc"] 0 80 24 ⟨false, false, false⟩) ∧
      ∀ q out1, step 0 q .CursorRight = some out1 →
        out1.pager.viewOffset = q.viewOffset ∧ out1.pager.cursorY = q.cursorY ∧
        out1.pager.currentFileIndex = q.currentFileIndex ∧
        out1.pager.screenWidth = q.screenWidth ∧ out1.pager.screenHeight = q.screenHeight ∧
        setup out1.pager = setup q :=
  ⟨by decide, by decide, by decide, by decide,
    horizontal_frame 0 (newPager [mkBuffer "f" "ab\nc"] 0 80 24 ⟨false, false, false⟩)
      (mkBuffer "f" "ab\nc") ['a', 'b'] (by decide) (by decide) (by decide) .CursorRight
      (by decide)⟩

/-! ## The startup clamp -/

theorem clampOffset_foldl (buffers : List ContentBuffer) (offset : Int) :
    clampOffset buffers offset =
      (buffers.map (fun b => ((splitLines b.Content).length : Int) - 1)).foldl min offset := by
  induction buffers generalizing offset with
  | nil => rfl
  | cons b rest ih =>
    unfold clampOffset
    simp only [List.map_cons, List.foldl_cons]
    rw [ih]
    congr 1
    split
    · exact (min_eq_right (by omega)).symm
    · exact (min_eq_left (by omega)).symm

theorem clampOffset_attained (buffers : List ContentBuffer) (offset : Int) :
    clampOffset buffers offset = offset ∨
      ∃ b ∈ buffers, clampOffset buffers offset = ((splitLines b.Content).length : Int) - 1 := by
  induction buffers generalizing offset with
  | nil => exact Or.inl rfl
  | cons b rest ih =>
    unfold clampOffset
    rcases ih (if offset ≥ ((splitLines b.Content).length : Int) then
        ((splitLines b.Content).length : Int) - 1 else offset) with h | ⟨b1, hb1, h⟩
    · by_cases hc : offset ≥ ((splitLines b.Content).length : Int)
      · right
        refine ⟨b, List.mem_cons_self _ _, ?_⟩
        simp only [hc, if_true] at h ⊢
        exact h
      · left
        simp only [hc, if_false] at h ⊢
        exact h
    · exact Or.inr ⟨b1, List.mem_cons_of_mem _ hb1, h⟩

/-- C20: the offset the clamping loop leaves is the minimum of the requested
offset and of `lineCount - 1` over all buffers: it is the left fold of `min`
over these values, it is below or equal to each of them and equal to one of
them.  Hence it is strictly less than the line count of every buffer and, for
a requested offset `≥ 0`, non-negative, so the row a buffer switch resets to
exists in every buffer. -/
theorem clampOffset_min (buffers : List ContentBuffer) (offset : Int) :
    clampOffset buffers offset =
      (buffers.map (fun b => ((splitLines b.Content).length : Int) - 1)).foldl min offset ∧
    clampOffset buffers offset ≤ offset ∧
    (∀ b ∈ buffers, clampOffset buffers offset ≤ ((splitLines b.Content).length : Int) - 1) ∧
    (clampOffset buffers offset = offset ∨
      ∃ b ∈ buffers, clampOffset buffers offset = ((splitLines b.Content).length : Int) - 1) ∧
    (∀ b ∈ buffers, clampOffset buffers offset < ((splitLines b.Content).length : Int)) ∧
    (0 ≤ offset → 0 ≤ clampOffset buffers offset) ∧
    (0 ≤ offset → ∀ b ∈ buffers,
      ∃ line, index (splitLines b.Content) (clampOffset buffers offset) = some line) := by
  refine ⟨clampOffset_foldl buffers offset, clampOffset_le buffers offset, ?_,
    clampOffset_attained buffers offset, clampOffset_lt buffers offset,
    clampOffset_nonneg buffers offset, ?_⟩
  · intro b hb
    have := clampOffset_lt buffers offset b hb
    omega
  · intro h0 b hb
    exact index_isSome _ _ (clampOffset_nonneg buffers offset h0)
      (clampOffset_lt buffers offset b hb)

/-! ## The absolute-number gutter -/

theorem toDigitsCore_length_log (f : Nat) :
    ∀ (n : Nat) (ds : List Char), n < f →
      (Nat.toDigitsCore 10 f n ds).length = ds.length + (Nat.log 10 n + 1) := by
  induction f with
  | zero => intro n ds h; exact absurd h (Nat.not_lt_zero _)
  | succ f ih =>
    intro n ds h
    unfold Nat.toDigitsCore
    by_cases hd : n / 10 = 0
    · have hn : n < 10 := by omega
      simp only [hd, if_true, List.length_cons, Nat.log_of_lt hn]
    · have hn : 10 ≤ n := by omega
      simp only [hd, if_false]
      rw [ih (n / 10) _ (by omega), Nat.log_of_one_lt_of_le (by decide) hn]
      simp only [List.length_cons]
      omega

theorem toDigits_length (n : Nat) : (Nat.toDigits 10 n).length = Nat.log 10 n + 1 := by
  unfold Nat.toDigits
  rw [toDigitsCore_length_log (n + 1) n [] (Nat.lt_succ_self n)]
  simp

theorem sprintD_length_mono (n m : Nat) (h : n ≤ m) :
    (sprintD (n : Int)).length ≤ (sprintD (m : Int)).length := by
  have hn : ¬ ((n : Int) < 0) := by omega
  have hm : ¬ ((m : Int) < 0) := by omega
  simp only [sprintD, hn, hm, if_false, Int.natAbs_ofNat, toDigits_length]
  exact Nat.succ_le_succ (Nat.log_mono_right h)

theorem sprintPadD_length (width : Nat) (n : Int)
    (h : (sprintD n).length ≤ width) : (sprintPadD width n).length = width + 1 := by
  simp only [sprintPadD, List.length_append, List.length_replicate, List.length_singleton]
  omega

theorem drawNumber_fits (W y x0 : Int) :
    ∀ (cs : List Char) (k : Nat), x0 + k + cs.length ≤ W →
      drawNumber W y cs (x0 + k) =
        ((cs.enumFrom k).map (fun kc => (⟨x0 + (kc.1 : Int), y, kc.2⟩ : Cell)),
          x0 + k + cs.length) := by
  intro cs
  induction cs with
  | nil => intro k _; simp [drawNumber]
  | cons c cs ih =>
    intro k h
    simp only [List.length_cons] at h
    push_cast at h
    have hx : ¬ x0 + (k : Int) ≥ W := by omega
    have ih1 := ih (k + 1) (by push_cast; omega)
    have hk : x0 + ((k + 1 : Nat) : Int) = x0 + k + 1 := by push_cast; omega
    rw [hk] at ih1
    unfold drawNumber
    simp only [hx, if_false, ih1, List.enumFrom_cons, List.map_cons, List.length_cons]
    simp only [Prod.mk.injEq, true_and]
    push_cast
    omega

theorem drawTab_row_le (W H P : Int) :
    ∀ (n : Nat) (x y : Int), y ≤ (drawTab W H P n x y).2.2 := by
  intro n
  induction n with
  | zero => intro x y; exact le_refl _
  | succ n ih =>
    intro x y
    unfold drawTab
    split
    · split
      · simp only; omega
      · exact le_trans (by omega) (ih _ _)
    · exact ih _ _

theorem drawLine_row_le (W H P : Int) :
    ∀ (rs : List Char) (x y : Int), y ≤ (drawLine W H P rs x y).2.2 := by
  intro rs
  induction rs with
  | nil => intro x y; exact le_refl _
  | cons r rs ih =>
    intro x y
    unfold drawLine
    split
    · exact le_trans (drawTab_row_le W H P tabWidth x y) (ih _ _)
    · split
      · split
        · simp only; omega
        · exact le_trans (by omega) (ih _ _)
      · exact ih _ _

theorem drawRow_row_le (p : Pager) (w : Nat) (line : List Char) (lineNum y : Int) :
    y ≤ (drawRow p w line lineNum y).2 := by
  unfold drawRow
  exact drawLine_row_le _ _ _ _ _ _

theorem drawLines_rows (p : Pager) (lines : List (List Char)) (w : Nat) :
    ∀ (k : Nat) (lineNum y : Int) (cells : List Cell), 0 ≤ y →
      drawLines p lines w k lineNum y = some cells →
      ∀ iy ∈ rowStarts p lines w k lineNum y,
        ∃ line pre post, index lines iy.1 = some line ∧ 0 ≤ iy.2 ∧ iy.2 < p.screenHeight ∧
          cells = pre ++ (drawRow p w line iy.1 iy.2).1 ++ post := by
  intro k
  induction k with
  | zero => intro lineNum y cells _ _ iy hiy; simp [rowStarts] at hiy
  | succ k ih =>
    intro lineNum y cells hy hd iy hiy
    unfold drawLines at hd
    unfold rowStarts at hiy
    by_cases hH : y ≥ p.screenHeight
    · simp [hH] at hiy
    · simp only [hH, if_false] at hd hiy
      cases hidx : index lines lineNum with
      | none => simp [hidx] at hiy
      | some line =>
        simp only [hidx] at hd hiy
        cases hrest : drawLines p lines w k (lineNum + 1)
            ((drawRow p w line lineNum y).2 + 1) with
        | none => simp [hrest] at hd
        | some rest =>
          simp only [hrest, Option.some.injEq] at hd
          rcases List.mem_cons.mp hiy with h | h
          · subst h
            exact ⟨line, [], rest, hidx, hy, by omega, by simp [← hd]⟩
          · have hy1 : 0 ≤ (drawRow p w line lineNum y).2 + 1 := by
              have := drawRow_row_le p w line lineNum y
              omega
            obtain ⟨line1, pre, post, h1, h2, h3, h4⟩ := ih _ _ rest hy1 hrest iy h
            exact ⟨line1, (drawRow p w line lineNum y).1 ++ pre, post, h1, h2, h3,
              by rw [← hd, h4]; simp⟩

theorem drawRow_absolute_cells (p : Pager) (w : Nat) (line : List Char) (lineNum y : Int)
    (hsn : p.showNumbers = true) (hW : (w : Int) + 1 ≤ p.screenWidth)
    (hlen : (sprintD (lineNum + 1)).length ≤ w) :
    (drawRow p w line lineNum y).1 =
      textCells (sprintPadD w (lineNum + 1)) y ++
        (drawLine p.screenWidth p.screenHeight ((w : Int) + 1) line ((w : Int) + 1) y).1 := by
  have hl := sprintPadD_length w (lineNum + 1) hlen
  have hfit := drawNumber_fits p.screenWidth y 0 (sprintPadD w (lineNum + 1)) 0
    (by rw [hl]; push_cast; omega)
  simp only [Nat.cast_zero, add_zero, zero_add, hl] at hfit
  unfold drawRow
  simp only [hsn, if_true, Bool.not_true, Bool.and_false, Bool.false_eq_true, if_false, hfit,
    List.append_nil, textCells]
  push_cast
  rfl

theorem drawLine_head (W H P x y : Int) (c : Char) (rest : List Char) (hx : x < W) :
    ∃ tail, (drawLine W H P (c :: rest) x y).1 =
      (⟨x, y, if c = '\t' then ' ' else c⟩ : Cell) :: tail := by
  have hx1 : ¬ x ≥ W := by omega
  unfold drawLine
  by_cases hc : c = '\t'
  · simp only [hc, if_true, tabWidth]
    unfold drawTab
    simp only [hx1, if_false]
    exact ⟨_, rfl⟩
  · simp only [hc, hx1, if_false]
    exact ⟨_, rfl⟩

theorem drawContent_cells {p p1 : Pager} {f : Frame} {b : ContentBuffer}
    (hb : index p.buffers p.currentFileIndex = some b)
    (hd : drawContent p = some (p1, f)) :
    drawLines p (splitLines b.Content) (lineNumberWidth b)
      (((splitLines b.Content).length : Int) - p.viewOffset).toNat p.viewOffset 0
      = some f.cells := by
  unfold drawContent at hd
  simp only [hb] at hd
  split at hd
  · exact absurd hd (by simp)
  · rename_i cells hc
    simp only [Option.some.injEq, Prod.mk.injEq] at hd
    rw [← hd.2]
    exact hc

/-- C19 (counterexample): with `--numbers` on the buffer "a" and a 2x1 grid
the gutter width is 1 and the grid is wider than it, the line starts on row 0,
and the renderer writes only the gutter `'1'`, `' '`: the line's first
character is not written at all. -/
theorem absolute_gutter_counterexample :
    lineNumberWidth (mkBuffer "f" "a") = 1 ∧
    (drawContent ⟨[mkBuffer "f" "a"], 0, 0, 0, 2, 1, 0, true, false, false⟩).map
        (fun r => r.2.cells) = some [⟨0, 0, '1'⟩, ⟨1, 0, ' '⟩] := by
  decide

/-- C19 (amended): with `showNumbers` set and `screenWidth > lineNumberWidth`,
where `lineNumberWidth` is the number of decimal digits of the buffer's line
count, every source line with index `i` that the line loop starts on a screen
row `y` (then `0 ≤ y < screenHeight`) has, at columns `0 .. lineNumberWidth`
of row `y`, the decimal text of `i + 1` right-justified with leading spaces to
`lineNumberWidth` columns and followed by one space; and when
`screenWidth > lineNumberWidth + 1` the next write is the line's first
character (a space for a tab) at column `lineNumberWidth + 1` of row `y`. -/
theorem absolute_gutter (p : Pager) (b : ContentBuffer)
    (hb : index p.buffers p.currentFileIndex = some b)
    (hsn : p.showNumbers = true)
    (hW : (lineNumberWidth b : Int) < p.screenWidth) :
    (0 ≤ p.viewOffset → ∃ p1 f, drawContent p = some (p1, f)) ∧
    (0 ≤ p.viewOffset → p.viewOffset < ((splitLines b.Content).length : Int) →
      0 < p.screenHeight →
      (p.viewOffset, (0 : Int)) ∈ rowStarts p (splitLines b.Content) (lineNumberWidth b)
        (((splitLines b.Content).length : Int) - p.viewOffset).toNat p.viewOffset 0) ∧
    ∀ p1 f, drawContent p = some (p1, f) →
      ∀ i y, (i, y) ∈ rowStarts p (splitLines b.Content) (lineNumberWidth b)
          (((splitLines b.Content).length : Int) - p.viewOffset).toNat p.viewOffset 0 →
        ∃ line pre post, index (splitLines b.Content) i = some line ∧
          0 ≤ y ∧ y < p.screenHeight ∧
          (sprintPadD (lineNumberWidth b) (i + 1)).length = lineNumberWidth b + 1 ∧
          sprintPadD (lineNumberWidth b) (i + 1) =
            List.replicate (lineNumberWidth b - (sprintD (i + 1)).length) ' ' ++
              sprintD (i + 1) ++ [' '] ∧
          f.cells = pre ++ textCells (sprintPadD (lineNumberWidth b) (i + 1)) y ++ post ∧
          (∀ c rest, line = c :: rest → (lineNumberWidth b : Int) + 1 < p.screenWidth →
            ∃ post1, post =
              (⟨(lineNumberWidth b : Int) + 1, y, if c = '\t' then ' ' else c⟩ : Cell) ::
                post1) := by
  refine ⟨fun hv => ?_, fun hv hlt hH => ?_, fun p1 f hd i y hiy => ?_⟩
  · obtain ⟨f, hf⟩ := drawContent_isSome hb hv
    exact ⟨_, f, hf⟩
  · obtain ⟨k, hk⟩ : ∃ k, (((splitLines b.Content).length : Int) - p.viewOffset).toNat = k + 1 :=
      ⟨(((splitLines b.Content).length : Int) - p.viewOffset).toNat - 1, by omega⟩
    obtain ⟨line, hline⟩ := index_isSome (splitLines b.Content) p.viewOffset hv hlt
    have hH1 : ¬ (0 : Int) ≥ p.screenHeight := by omega
    rw [hk]
    unfold rowStarts
    simp only [hH1, if_false, hline]
    exact List.mem_cons_self _ _
  · have hcells := drawContent_cells hb hd
    obtain ⟨line, pre, post0, hline, hy0, hy1, hsplit⟩ :=
      drawLines_rows p _ _ _ _ _ f.cells (le_refl _) hcells (i, y) hiy
    simp only at hline hy0 hy1 hsplit
    obtain ⟨hi0, hi1⟩ := index_bounds hline
    have hi : i + 1 = ((i.toNat + 1 : Nat) : Int) := by push_cast; omega
    have hlen : (sprintD (i + 1)).length ≤ lineNumberWidth b := by
      rw [hi]
      exact sprintD_length_mono _ _ (by omega)
    have hrow := drawRow_absolute_cells p (lineNumberWidth b) line i y hsn (by omega) hlen
    refine ⟨line, pre,
      (drawLine p.screenWidth p.screenHeight ((lineNumberWidth b : Int) + 1) line
        ((lineNumberWidth b : Int) + 1) y).1 ++ post0,
      hline, hy0, hy1, sprintPadD_length _ _ hlen, rfl, ?_, ?_⟩
    · rw [hsplit, hrow]
      simp only [List.append_assoc]
    · intro c rest hc hw
      subst hc
      obtain ⟨tail, ht⟩ := drawLine_head p.screenWidth p.screenHeight
        ((lineNumberWidth b : Int) + 1) ((lineNumberWidth b : Int) + 1) y c rest hw
      exact ⟨tail ++ post0, by rw [ht]; rfl⟩

theorem absolute_gutter_witness :
    index (newPager [mkBuffer "f" "ab\nc"] 0 80 24 ⟨true, false, false⟩).buffers
        (newPager [mkBuffer "f" "ab\nc"] 0 80 24 ⟨true, false, false⟩).currentFileIndex
      = some (mkBuffer "f" "ab\nc") ∧
    (newPager [mkBuffer "f" "ab\nc"] 0 80 24 ⟨true, false, false⟩).showNumbers = true ∧
    (lineNumberWidth (mkBuffer "f" "ab\nc") : Int) <
      (newPager [mkBuffer "f" "ab\nc"] 0 80 24 ⟨true, false, false⟩).screenWidth ∧
    (0 ≤ (newPager [mkBuffer "f" "ab\nc"] 0 80 24 ⟨true, false, false⟩).viewOffset →
      ∃ p1 f, drawContent (newPager [mkBuffer "f" "ab\nc"] 0 80 24 ⟨true, false, false⟩)
        = some (p1, f)) :=
  ⟨by decide, by decide, by decide,
    (absolute_gutter (newPager [mkBuffer "f" "ab\nc"] 0 80 24 ⟨true, false, false⟩)
      (mkBuffer "f" "ab\nc") (by decide) (by decide) (by decide)).1⟩

end GoPager
